import Mathlib

/-!
Verification development for the `ccg` checkpoint-guardian tool.

The Rust sources are shallowly embedded as executable Lean definitions:

* Rust `String` operations are mirrored by explicit char-list functions
  (`strStartsWith`, `strTrim`, ...) with the same semantics as the `str`
  methods used by the source (`starts_with`, `trim`, `lines`, ...).
* The version-control backend (libgit2) is external to the program (spec
  section 6); its state is modelled by an explicit `RepoState` record and
  each backend primitive the source calls becomes a small transition or
  observation on that record.  Terminal styling (`console::style`) only
  wraps text in colour escapes; following spec section 1 (styling is out
  of scope) the embedding renders the unstyled text of every `format!`.
* Fallible Rust functions returning `Result<T, CheckpointError>` become
  Lean functions into `Except CheckpointError T`; stateful ones
  additionally thread a `RepoState` (and, for the service layer, a trace
  of branch-isolation protocol events).
-/

namespace CcGuardian

/- === String primitives (Rust `str` methods used by the source) === -/

/-- Rust `str::starts_with`. -/
def strStartsWith (s pfx : String) : Bool := List.isPrefixOf pfx.toList s.toList

/-- Whitespace trimming on a char list, from both ends. -/
def listTrim (l : List Char) : List Char :=
  ((l.dropWhile Char.isWhitespace).reverse.dropWhile Char.isWhitespace).reverse

/-- Rust `str::trim`. -/
def strTrim (s : String) : String := String.mk (listTrim s.toList)

/-- Substring containment on char lists (used to mirror Rust `str::contains`). -/
def listIsInfixOf (pat : List Char) : List Char → Bool
  | [] => pat.isEmpty
  | c :: rest => pat.isPrefixOf (c :: rest) || listIsInfixOf pat rest

/-- Rust `str::contains` for a string pattern. -/
def strHasSub (s pat : String) : Bool := listIsInfixOf pat.toList s.toList

/-- Digit-run parser used by `parseIntStr`. -/
def parseDigits (l : List Char) : Option Nat :=
  if l = [] then none
  else if l.all Char.isDigit then some (l.foldl (fun n c => n * 10 + (c.toNat - 48)) 0)
  else none

/-- Rust `str::parse::<i32>` (sign plus decimal digits; the i32 overflow
failure case is not modelled, no claim depends on it). -/
def parseIntStr (s : String) : Option Int :=
  match s.toList with
  | '-' :: rest => (parseDigits rest).map (fun n => -(n : Int))
  | '+' :: rest => (parseDigits rest).map (fun n => (n : Int))
  | l => (parseDigits l).map (fun n => (n : Int))

/-- Accumulator for `splitWhitespace`. -/
def splitWsAux : List Char → List Char → List (List Char)
  | [], cur => if cur = [] then [] else [cur.reverse]
  | c :: rest, cur =>
    if Char.isWhitespace c then
      if cur = [] then splitWsAux rest [] else cur.reverse :: splitWsAux rest []
    else splitWsAux rest (c :: cur)

/-- Rust `str::split_whitespace` (maximal non-whitespace runs, no empties). -/
def splitWhitespace (s : String) : List String := (splitWsAux s.toList []).map String.mk

/-- Drop a trailing carriage return, as Rust `str::lines` does per line. -/
def stripCrChars (l : List Char) : List Char :=
  if l.getLast? = some '\r' then l.dropLast else l

/-- Rust `message.lines().next().unwrap_or(dflt)`: first line of a commit
message, or the given default when the message is empty. -/
def firstLineOr (dflt m : String) : String :=
  if m = "" then dflt else String.mk (stripCrChars (m.toList.takeWhile (fun c => c ≠ '\n')))

/- === Error taxonomy (src/error.rs) and backend error codes === -/

/-- Subset of `git2::ErrorCode` values the program inspects. -/
inductive GitCode
  | notFound
  | unbornBranch
  | generic
deriving DecidableEq, Repr

/-- A backend (`git2::Error`) failure: the code the program matches on plus
its message text. -/
structure GitErr where
  code : GitCode
  msg : String
deriving DecidableEq, Repr

/-- The error enum of src/error.rs (the variants exercised by the claims). -/
inductive CheckpointError
  | repositoryNotFound
  | gitOperationFailed (e : GitErr)
  | branchNotFound (b : String)
  | checkpointNotFound (h : String)
  | invalidHash (m : String)
  | uncommittedChanges
  | noChangesToCommit
  | invalidArgument (m : String)
deriving DecidableEq, Repr

/-- Decidable equality of results, used only to evaluate witnesses. -/
instance {e a : Type} [DecidableEq e] [DecidableEq a] : DecidableEq (Except e a)
  | .ok x, .ok y => if h : x = y then .isTrue (by rw [h]) else .isFalse (by simp [h])
  | .ok _, .error _ => .isFalse (by simp)
  | .error _, .ok _ => .isFalse (by simp)
  | .error x, .error y => if h : x = y then .isTrue (by rw [h]) else .isFalse (by simp [h])

/- === Commits and the hash resolver (src/git_ops.rs `find_commit`,
src/git_ops/commit.rs `CommitOperations::find_commit`,
src/git_ops/diff.rs `DiffOperations::find_commit_by_hash`) === -/

/-- A commit as the resolver and the checkpoint operations see it: hash
string, message, tree object, parent hash, author timestamp. -/
structure CommitRec where
  hash : String
  message : String
  tree : Nat
  parent : Option String
  time : Int
deriving DecidableEq, Repr

/-- Hex-digit test for hash strings. -/
def isHexChar (c : Char) : Bool :=
  c.isDigit || ('a' ≤ c && c ≤ 'f') || ('A' ≤ c && c ≤ 'F')

/-- A syntactically full-length commit hash: 40 hex characters. -/
def isFullHash (s : String) : Bool := s.length = 40 && s.toList.all isHexChar

/-- Modelled from the spec: the backend direct lookup
(`Oid::from_str` followed by `repo.find_commit`) that the source performs
before any ancestry scan.  Spec section 4.1: a full-length hash query is
looked up directly; the commit database is modelled as the checkpoint
ancestry itself, since all checkpoints live on the single reserved branch
(spec section 3). -/
def directLookup (ancestry : List CommitRec) (hash : String) : Option CommitRec :=
  if isFullHash hash then ancestry.find? (fun c => c.hash = hash) else none

/-- Commits of the ancestry whose hash string starts with the query
(the collection loop over the revwalk in every `find_commit` variant). -/
def matchesOf (ancestry : List CommitRec) (hash : String) : List CommitRec :=
  ancestry.filter (fun c => strStartsWith c.hash hash)

/-- Error text of git_ops.rs line 253. -/
def invalidFormatMsg (hash : String) : String := "无效的hash格式: " ++ hash

/-- Error text of git_ops.rs line 249. -/
def ambiguousShortMsg (hash : String) : String :=
  "短hash \x27" ++ hash ++ "\x27 匹配到多个提交"

/-- The first seven characters of a hash (`&oid.to_string()[..7]`). -/
def shortHash (h : String) : String := String.mk (h.toList.take 7)

/-- Candidate listing built by commit.rs lines 333-349: one line per match,
at most five of them. -/
def candidateLines : List CommitRec → String
  | [] => ""
  | c :: rest =>
      "  " ++ shortHash c.hash ++ " - " ++ firstLineOr "No message" c.message ++ "\n"
        ++ candidateLines rest

/-- The multi-match error message of commit.rs lines 332-350: header, the
first five candidates, a remaining-count line when more than five match,
and a final hint. -/
def ambiguousDetailMsg (hash : String) (ms : List CommitRec) : String :=
  "短hash \x27" ++ hash ++ "\x27 匹配到多个提交:\n"
    ++ candidateLines (ms.take 5)
    ++ (if 5 < ms.length then
          "  ... 还有 " ++ toString (ms.length - 5) ++ " 个匹配\n"
        else "")
    ++ "请使用更长的hash前缀来唯一标识提交"

/-- GitOperations::find_commit (git_ops.rs lines 214-257): direct lookup,
then the 2-to-39-character prefix scan over the ancestry walk. -/
def find_commit (ancestry : List CommitRec) (hash : String) :
    Except CheckpointError CommitRec :=
  match directLookup ancestry hash with
  | some c => .ok c
  | none =>
    if 2 ≤ hash.length ∧ hash.length < 40 then
      match matchesOf ancestry hash with
      | [] => .error (.checkpointNotFound hash)
      | [c] => .ok c
      | _ => .error (.invalidHash (ambiguousShortMsg hash))
    else
      .error (.invalidHash (invalidFormatMsg hash))

/-- CommitOperations::find_commit (commit.rs lines 289-363): same structure,
but the multi-match error carries the candidate listing and the too-short
case has its own message. -/
def CommitOps_find_commit (ancestry : List CommitRec) (hash : String) :
    Except CheckpointError CommitRec :=
  match directLookup ancestry hash with
  | some c => .ok c
  | none =>
    if 2 ≤ hash.length ∧ hash.length < 40 then
      match matchesOf ancestry hash with
      | [] => .error (.checkpointNotFound hash)
      | [c] => .ok c
      | ms => .error (.invalidHash (ambiguousDetailMsg hash ms))
    else if hash.length < 2 then
      .error (.invalidHash ("hash太短，至少需要2个字符: " ++ hash))
    else
      .error (.invalidHash (invalidFormatMsg hash))

/-- Error text of diff.rs line 276. -/
def diffAmbiguousMsg (hash : String) : String :=
  "短hash \x27" ++ hash ++ "\x27 匹配到多个提交，请使用更长的hash前缀"

/-- DiffOperations::find_commit_by_hash (diff.rs lines 235-285): same
structure as GitOperations::find_commit with its own multi-match text. -/
def DiffOps_find_commit_by_hash (ancestry : List CommitRec) (hash : String) :
    Except CheckpointError CommitRec :=
  match directLookup ancestry hash with
  | some c => .ok c
  | none =>
    if 2 ≤ hash.length ∧ hash.length < 40 then
      match matchesOf ancestry hash with
      | [] => .error (.checkpointNotFound hash)
      | [c] => .ok c
      | _ => .error (.invalidHash (diffAmbiguousMsg hash))
    else
      .error (.invalidHash (invalidFormatMsg hash))


/- === Create command stdin payload handling (src/commands/create.rs) === -/

/-- One structured patch entry of the stdin hook payload (create.rs 10-13). -/
structure StructuredPatch where
  lines : List String
deriving DecidableEq, Repr

/-- Splitter on the slash character, keeping empty segments, mirroring Rust
`str::split` with a char pattern. -/
def splitOnSlashAux : List Char → List Char → List (List Char)
  | [], cur => [cur.reverse]
  | c :: rest, cur =>
    if c = '/' then cur.reverse :: splitOnSlashAux rest []
    else splitOnSlashAux rest (c :: cur)

/-- The tool_input JSON value as the command consumes it.  serde_json is an
external collaborator; the embedding keeps exactly the two accesses the
source performs: the optional string field "file_path", and the pretty
rendering produced by `serde_json::to_string_pretty` (modelled as a given
string; the source falls back to `to_string` only when pretty-printing
fails, which serde does not do for values it just parsed). -/
structure ToolInputJson where
  file_path : Option String
  pretty : String
deriving DecidableEq, Repr

/-- ToolResponse of create.rs 15-19. -/
structure ToolResponse where
  structured_patch : Option (List StructuredPatch)
deriving DecidableEq, Repr

/-- The hook payload parsed from stdin (create.rs 21-28). -/
structure HookData where
  tool_name : String
  tool_response : ToolResponse
  tool_input : ToolInputJson
  cwd : Option String
deriving DecidableEq, Repr

/-- File-path hint of format_commit_message (create.rs 41-46): the last
slash-separated segment of tool_input.file_path, or empty when absent. -/
def hookFilePath (d : HookData) : String :=
  (d.tool_input.file_path.map
    (fun s => String.mk ((splitOnSlashAux s.toList []).getLastD s.toList))).getD ""

/-- Title line of format_commit_message (create.rs 48-52). -/
def hookTitle (d : HookData) : String :=
  if hookFilePath d = "" then d.tool_name
  else d.tool_name ++ " on " ++ hookFilePath d

/-- Changes block of format_commit_message (create.rs 56-64): one indented
line per structured-patch line, or nothing when no patch was supplied. -/
def hookChanges (d : HookData) : String :=
  match d.tool_response.structured_patch with
  | some patches =>
      "Changes:\n"
        ++ String.join (patches.map
            (fun p => String.join (p.lines.map (fun l => "  " ++ l ++ "\n"))))
        ++ "\n"
  | none => ""

/-- CreateCommand::format_commit_message (create.rs 40-74): title, blank
line, optional changes block, then the原 tool arguments pretty-printed. -/
def format_commit_message (d : HookData) : String :=
  hookTitle d ++ "\n\n" ++ hookChanges d ++ "Tool Input:\n" ++ d.tool_input.pretty

/-- Outcome of the bounded stdin probe (create.rs 91-99): either the reader
thread delivered the whole input within the 100 ms timeout, or nothing
arrived.  The probe thread itself is the one concurrency in the program
(spec section 5) and only its synchronously consumed outcome is modelled. -/
inductive StdinProbe
  | noData
  | data (raw : String)
deriving DecidableEq, Repr

/-- Commit-message selection of CreateCommand::execute (create.rs 81-125),
with the `serde_json::from_str::<HookData>` step abstracted as the `parse`
oracle.  Returns the message handed to create_checkpoint. -/
def createCommitMessage (argMessage : Option String)
    (parse : String → Option HookData) (probe : StdinProbe) : String :=
  match argMessage with
  | some m => m
  | none =>
    match probe with
    | .data stdinData =>
        if strTrim stdinData ≠ "" then
          match parse stdinData with
          | some parsed => format_commit_message parsed
          | none => stdinData
        else "Manual checkpoint"
    | .noData => "Manual checkpoint"

/-- Sample structured patch for witnesses. -/
def samplePatch : StructuredPatch := ⟨["@@ -1,2 +1,3 @@", "+new line"]⟩

/-- Sample hook payload for witnesses. -/
def sampleHook : HookData :=
  { tool_name := "Edit",
    tool_response := ⟨some [samplePatch]⟩,
    tool_input := { file_path := some "src/main.rs",
                    pretty := "file_path: src/main.rs" },
    cwd := none }


/- === Diff renderer (src/git_ops/diff.rs): formatting state, the
pending-newline heuristic, and the statistics summary === -/

/-- Per-file counters map of format_diff_output: file path to
(additions, deletions), mirroring the HashMap<String,(i32,i32)>. -/
abbrev FileStats := List (String × Int × Int)

/-- HashMap::insert of the pre-pass (diff.rs 312-325; the source runs the
identical pre-pass twice, which is idempotent): register a path with
counters (0, 0). -/
def statsInsert (fs : FileStats) (f : String) : FileStats :=
  if fs.any (fun e => e.1 = f) then fs else fs ++ [(f, 0, 0)]

/-- Pre-pass over diff.deltas() registering every delta path. -/
def initFileStats : List (Option String) → FileStats
  | [] => []
  | some p :: rest => initFileStats rest |> (fun fs => statsInsert fs p)
  | none :: rest => initFileStats rest

/-- The `stats.0 += 1` update behind `file_stats.get_mut(&current_file)`:
increment the addition counter of the entry for `f` when present. -/
def bumpAdd (fs : FileStats) (f : String) : FileStats :=
  fs.map (fun e => if e.1 = f then (e.1, e.2.1 + 1, e.2.2) else e)

/-- The deletion-counter analogue of `bumpAdd`. -/
def bumpDel (fs : FileStats) (f : String) : FileStats :=
  fs.map (fun e => if e.1 = f then (e.1, e.2.1, e.2.2 + 1) else e)

/-- Rust format width specifier `:>4`: right-align in four columns. -/
def padLeft4 (s : String) : String :=
  String.mk (List.replicate (4 - s.length) ' ') ++ s

/-- Four-column rendering of a line number. -/
def fmtNum4 (n : Int) : String := padLeft4 (toString n)

/-- Classification of a rendered output line.  The rendered report is
embedded as a list of classified lines whose concatenated `text` fields
form the `result` string the source accumulates; `addLine`/`delLine` mark
exactly the places where the source renders a `+`/`-` content line. -/
inductive OutKind
  | fileSep
  | fileHeader
  | indexInfo
  | hunkBanner
  | addLine
  | delLine
  | ctxLine
  | rawChunk
deriving DecidableEq, Repr

/-- One rendered chunk: the file section it belongs to (the
`current_file` at emission time), its kind, and its exact text. -/
structure OutLine where
  file : String
  kind : OutKind
  text : String
deriving DecidableEq, Repr

/-- Literal fallback rendering of one buffered deletion
(format_pending_changes, diff.rs 606-616). -/
def pendingDelLine (cf content : String) (line : Int) : OutLine :=
  ⟨cf, .delLine,
    fmtNum4 line ++ " " ++ padLeft4 "" ++ " " ++ "- " ++ content ++ "\n"⟩

/-- Literal fallback rendering of one buffered addition
(format_pending_changes, diff.rs 617-627). -/
def pendingAddLine (cf content : String) (line : Int) : OutLine :=
  ⟨cf, .addLine,
    padLeft4 "" ++ " " ++ fmtNum4 line ++ " " ++ "+ " ++ content ++ "\n"⟩

/-- Deletion loop of format_pending_changes: emit each buffered deletion
and bump the deletion counter per emission. -/
def format_pending_dels (cf : String) (fs : FileStats) :
    List (String × Int) → List OutLine × FileStats
  | [] => ([], fs)
  | (content, line) :: rest =>
      let out := format_pending_dels cf (bumpDel fs cf) rest
      (pendingDelLine cf content line :: out.1, out.2)

/-- Addition loop of format_pending_changes. -/
def format_pending_adds (cf : String) (fs : FileStats) :
    List (String × Int) → List OutLine × FileStats
  | [] => ([], fs)
  | (content, line) :: rest =>
      let out := format_pending_adds cf (bumpAdd fs cf) rest
      (pendingAddLine cf content line :: out.1, out.2)

/-- DiffOperations::format_pending_changes (diff.rs 598-628): literal
delete/add rendering of the buffer, in original order, counted toward the
per-file statistics. -/
def format_pending_changes (pd pa : List (String × Int)) (fs : FileStats)
    (cf : String) : List OutLine × FileStats :=
  let dels := format_pending_dels cf fs pd
  let adds := format_pending_adds cf dels.2 pa
  (dels.1 ++ adds.1, adds.2)

/-- Context line of the collapsed rendering (both heuristic handlers). -/
def collapseCtxLine (cf content : String) (oldL newL : Int) : OutLine :=
  ⟨cf, .ctxLine,
    fmtNum4 oldL ++ " " ++ fmtNum4 newL ++ " " ++ "  " ++ strTrim content ++ "\n"⟩

/-- Added line of the collapsed 1-deletion/2-additions rendering. -/
def collapseAddLine (cf content : String) (line : Int) : OutLine :=
  ⟨cf, .addLine,
    padLeft4 "" ++ " " ++ fmtNum4 line ++ " " ++ "+ " ++ strTrim content ++ "\n"⟩

/-- Deleted line of the collapsed 2-deletions/1-addition rendering. -/
def collapseDelLine (cf content : String) (line : Int) : OutLine :=
  ⟨cf, .delLine,
    fmtNum4 line ++ " " ++ padLeft4 "" ++ " " ++ "- " ++ strTrim content ++ "\n"⟩

/-- DiffOperations::handle_pending_newline_changes (diff.rs 631-685), the
hunk-boundary resolution of the newline buffer: only the
1-deletion/2-additions shape with matching trimmed texts is collapsed
(context line plus one addition); every other shape falls back to the
literal rendering. -/
def handle_pending_newline_changes (pd pa : List (String × Int))
    (fs : FileStats) (cf : String) : List OutLine × FileStats :=
  match pd, pa with
  | [(delContent, delLine)], [(add1Content, add1Line), (add2Content, add2Line)] =>
      if strTrim delContent = strTrim add1Content then
        ([collapseCtxLine cf delContent delLine add1Line,
          collapseAddLine cf add2Content add2Line],
         bumpAdd fs cf)
      else format_pending_changes pd pa fs cf
  | _, _ => format_pending_changes pd pa fs cf

/-- DiffOperations::handle_remaining_newline_changes (diff.rs 688-786),
the end-of-diff resolution of the newline buffer: the
1-deletion/2-additions collapse, additionally the 2-deletions/1-addition
collapse (context line plus one deletion), and literal rendering
otherwise. -/
def handle_remaining_newline_changes (pd pa : List (String × Int))
    (fs : FileStats) (cf : String) : List OutLine × FileStats :=
  match pd, pa with
  | [(delContent, delLine)], [(add1Content, add1Line), (add2Content, add2Line)] =>
      if strTrim delContent = strTrim add1Content then
        ([collapseCtxLine cf delContent delLine add1Line,
          collapseAddLine cf add2Content add2Line],
         bumpAdd fs cf)
      else format_pending_changes pd pa fs cf
  | [(del1Content, del1Line), (del2Content, del2Line)], [(addContent, addLine)] =>
      if strTrim del1Content = strTrim addContent then
        ([collapseCtxLine cf del1Content del1Line addLine,
          collapseDelLine cf del2Content del2Line],
         bumpDel fs cf)
      else format_pending_changes pd pa fs cf
  | _, _ => format_pending_changes pd pa fs cf

/-- Delta status values distinguished by the renderer (git2::Delta). -/
inductive DeltaStatus
  | added
  | deleted
  | modified
  | renamed
  | copied
  | other
deriving DecidableEq, Repr

/-- The fields of a git2 delta the renderer reads: `new_file().path()` and
`status()`. -/
structure DeltaInfo where
  path : Option String
  status : DeltaStatus
deriving DecidableEq, Repr

/-- The fields of a git2 hunk header the renderer reads. -/
structure HunkInfo where
  oldStart : Int
  oldLines : Int
  newStart : Int
  newLines : Int
deriving DecidableEq, Repr

/-- One callback invocation of `diff.print(DiffFormat::Patch, ...)`: the
delta and optional hunk passed alongside a classified line. -/
structure PrintEvent where
  delta : DeltaInfo
  hunk : Option HunkInfo
  origin : Char
  content : String
deriving DecidableEq, Repr

/-- A structural diff as the renderer consumes it: the delta list (for the
pre-pass) and the patch line stream (for the callback).  Computing this
object from trees is backend work (spec section 6). -/
structure DiffInput where
  deltas : List (Option String)
  events : List PrintEvent
deriving Repr

/-- Detection of the end-of-file newline marker lines (diff.rs 338-341). -/
def newlineMarker (content : String) : Bool :=
  strHasSub content "No newline at end of file"
    || strHasSub content "\\ No newline at end of file"

/-- Icon and label of the file-status header (diff.rs 380-387). -/
def fileStatusIcon : DeltaStatus → String × String
  | .added => ("📄", "新增文件")
  | .deleted => ("🗑️", "删除文件")
  | .modified => ("📝", "修改文件")
  | .renamed => ("📋", "重命名文件")
  | .copied => ("📑", "复制文件")
  | .other => ("📄", "文件变更")

/-- Text of the file header line (diff.rs 389-394). -/
def fileHeaderText (s : DeltaStatus) (p : String) : String :=
  (fileStatusIcon s).1 ++ " " ++ (fileStatusIcon s).2 ++ " " ++ p ++ "\n"

/-- File separator line (diff.rs 374-377). -/
def fileSepText : String := String.mk (List.replicate 100 '─') ++ "\n"

/-- Index info line (diff.rs 397-403). -/
def indexInfoText (content : String) : String := "📋 " ++ strTrim content ++ "\n"

/-- Range banner for a structured hunk header (diff.rs 432-459). -/
def hunkBannerText (hk : HunkInfo) : String :=
  "📍 行号范围: 旧文件:" ++ toString hk.oldStart ++ "-"
    ++ toString (if hk.oldLines > 0 then hk.oldStart + hk.oldLines - 1 else hk.oldStart)
    ++ " → 新文件:" ++ toString hk.newStart ++ "-"
    ++ toString (if hk.newLines > 0 then hk.newStart + hk.newLines - 1 else hk.newStart)
    ++ "\n"

/-- Range banner after the manual `@@` parse (diff.rs 494-505). -/
def manualBannerText (o n : Int) : String :=
  "📍 行号范围: 旧文件:" ++ toString o ++ " → 新文件:" ++ toString n ++ "\n"

/-- Banner for other `@`-prefixed hunk lines (diff.rs 507-513). -/
def otherBannerText (content : String) : String := "📍 " ++ strTrim content ++ "\n"

/-- Rust `part.strip_prefix(mark)` followed by `find(',')` and
`parse::<i32>` of the text before the comma (diff.rs 465-491). -/
def parseStartAfter (mark : Char) (part : String) : Option Int :=
  match part.toList with
  | c :: rest =>
      if c = mark then parseIntStr (String.mk (rest.takeWhile (fun ch => ch ≠ ',')))
      else none
  | [] => none

/-- Mutable state of the format_diff_output callback (diff.rs 303-331). -/
structure FmtState where
  currentFile : String
  fileStats : FileStats
  oldLineNum : Int
  newLineNum : Int
  hunkInitialized : Bool
  pendingDeletions : List (String × Int)
  pendingAdditions : List (String × Int)
  inNewlineContext : Bool
  outs : List OutLine
deriving Repr

/-- The file-header arm of the print callback (diff.rs 358-404). -/
def stepFileHeader (st : FmtState) (ev : PrintEvent) : FmtState :=
  if strStartsWith ev.content "diff --git" then
    let st₁ :=
      if st.currentFile ≠ "" then
        { st with outs := st.outs ++ [⟨st.currentFile, .rawChunk, "\n"⟩] }
      else st
    match ev.delta.path with
    | some p =>
        { st₁ with
          currentFile := p
          hunkInitialized := false
          oldLineNum := 0
          newLineNum := 0
          outs := st₁.outs
            ++ [⟨p, .fileSep, fileSepText⟩,
                ⟨p, .fileHeader, fileHeaderText ev.delta.status p⟩] }
    | none => st₁
  else if strStartsWith ev.content "index " then
    { st with outs := st.outs
        ++ [⟨st.currentFile, .indexInfo, indexInfoText ev.content⟩] }
  else st

/-- The pending-buffer flush performed at a hunk boundary (diff.rs 406-423). -/
def flushPending (st : FmtState) : FmtState :=
  if st.inNewlineContext
      && (st.pendingDeletions ≠ [] || st.pendingAdditions ≠ []) then
    let res := handle_pending_newline_changes st.pendingDeletions
      st.pendingAdditions st.fileStats st.currentFile
    { st with
      outs := st.outs ++ res.1
      fileStats := res.2
      pendingDeletions := []
      pendingAdditions := []
      inNewlineContext := false }
  else st

/-- The manual `@@` header parse (diff.rs 460-505). -/
def stepManualHunk (st₁ : FmtState) (content : String) : FmtState :=
  let parts := splitWhitespace content
  let st₂ :=
    if 3 ≤ parts.length then
      let stOld :=
        match (parts.get? 1).bind (parseStartAfter '-') with
        | some v => { st₁ with oldLineNum := v, hunkInitialized := true }
        | none => st₁
      match (parts.get? 2).bind (parseStartAfter '+') with
      | some v => { stOld with newLineNum := v }
      | none => stOld
    else st₁
  { st₂ with outs := st₂.outs
      ++ [⟨st₂.currentFile, .hunkBanner,
           manualBannerText st₂.oldLineNum st₂.newLineNum⟩] }

/-- The hunk-header arm of the print callback (diff.rs 405-514). -/
def stepHunkHeader (st : FmtState) (ev : PrintEvent) : FmtState :=
  let st₁ := flushPending st
  match ev.hunk with
  | some hk =>
      { st₁ with
        oldLineNum := hk.oldStart
        newLineNum := hk.newStart
        hunkInitialized := true
        outs := st₁.outs
          ++ [⟨st₁.currentFile, .hunkBanner, hunkBannerText hk⟩] }
  | none =>
      if strStartsWith ev.content "@@" then stepManualHunk st₁ ev.content
      else
        { st₁ with outs := st₁.outs
            ++ [⟨st₁.currentFile, .hunkBanner, otherBannerText ev.content⟩] }

/-- The added-line arm of the print callback (diff.rs 515-531). -/
def stepAddLine (st : FmtState) (content : String) : FmtState :=
  let fs := bumpAdd st.fileStats st.currentFile
  if st.hunkInitialized then
    { st with
      fileStats := fs
      newLineNum := st.newLineNum + 1
      outs := st.outs ++ [⟨st.currentFile, .addLine,
        padLeft4 "" ++ " " ++ fmtNum4 st.newLineNum ++ " " ++ "+ " ++ content⟩] }
  else
    { st with
      fileStats := fs
      outs := st.outs ++ [⟨st.currentFile, .addLine, "+ " ++ content⟩] }

/-- The deleted-line arm of the print callback (diff.rs 532-548). -/
def stepDelLine (st : FmtState) (content : String) : FmtState :=
  let fs := bumpDel st.fileStats st.currentFile
  if st.hunkInitialized then
    { st with
      fileStats := fs
      oldLineNum := st.oldLineNum + 1
      outs := st.outs ++ [⟨st.currentFile, .delLine,
        fmtNum4 st.oldLineNum ++ " " ++ padLeft4 "" ++ " " ++ "- " ++ content⟩] }
  else
    { st with
      fileStats := fs
      outs := st.outs ++ [⟨st.currentFile, .delLine, "- " ++ content⟩] }

/-- The context-line arm of the print callback (diff.rs 549-563). -/
def stepCtxLine (st : FmtState) (content : String) : FmtState :=
  if st.hunkInitialized then
    { st with
      oldLineNum := st.oldLineNum + 1
      newLineNum := st.newLineNum + 1
      outs := st.outs ++ [⟨st.currentFile, .ctxLine,
        fmtNum4 st.oldLineNum ++ " " ++ fmtNum4 st.newLineNum ++ " "
          ++ "  " ++ content⟩] }
  else
    { st with outs := st.outs ++ [⟨st.currentFile, .ctxLine, "  " ++ content⟩] }

/-- One callback invocation of format_diff_output (diff.rs 333-570): the
newline-marker detection and buffering, then the per-origin arms (the Rust
`match origin` over the literals F, H, plus, minus, space is embedded as
the equivalent ordered comparison chain). -/
def stepEvent (st : FmtState) (ev : PrintEvent) : FmtState :=
  if newlineMarker ev.content || ev.origin = '>' || ev.origin = '<' then
    { st with inNewlineContext := true }
  else if st.inNewlineContext && (ev.origin = '+' || ev.origin = '-') then
    if ev.origin = '+' then
      { st with pendingAdditions := st.pendingAdditions ++ [(ev.content, st.newLineNum)] }
    else
      { st with pendingDeletions := st.pendingDeletions ++ [(ev.content, st.oldLineNum)] }
  else if ev.origin = 'F' then stepFileHeader st ev
  else if ev.origin = 'H' then stepHunkHeader st ev
  else if ev.origin = '+' then stepAddLine st ev.content
  else if ev.origin = '-' then stepDelLine st ev.content
  else if ev.origin = ' ' then stepCtxLine st ev.content
  else st

/-- Folding the callback over the whole patch stream. -/
def processEvents (st : FmtState) : List PrintEvent → FmtState
  | [] => st
  | e :: rest => processEvents (stepEvent st e) rest

/-- End-of-stream resolution of a still-pending newline buffer
(diff.rs 573-582). -/
def finalFlush (st : FmtState) : FmtState :=
  if st.inNewlineContext && (st.pendingDeletions ≠ [] || st.pendingAdditions ≠ []) then
    let res := handle_remaining_newline_changes st.pendingDeletions
      st.pendingAdditions st.fileStats st.currentFile
    { st with
      outs := st.outs ++ res.1
      fileStats := res.2
      pendingDeletions := []
      pendingAdditions := [] }
  else st

/-- Concatenation of the rendered chunks: the `result` string. -/
def renderOuts (ls : List OutLine) : String := String.join (ls.map OutLine.text)

/-- Sum of the per-file addition counters. -/
def totalAdditions (fs : FileStats) : Int := (fs.map (fun e => e.2.1)).sum

/-- Sum of the per-file deletion counters. -/
def totalDeletions (fs : FileStats) : Int := (fs.map (fun e => e.2.2)).sum

/-- DiffOperations::generate_diff_summary (diff.rs 789-840): separator,
file count, insertion/deletion totals summed from the per-file counter
map, and the trailing legend. -/
def generate_diff_summary (fs : FileStats) : String :=
  let base := "\n" ++ String.mk (List.replicate 80 '─') ++ "\n"
    ++ "📊 统计: " ++ toString fs.length ++ " 个文件变更"
  let ta := totalAdditions fs
  let td := totalDeletions fs
  let withCounts :=
    if ta > 0 || td > 0 then
      base ++ ", "
        ++ (if ta > 0 then "+ " ++ toString ta ++ " 行新增" else "")
        ++ (if ta > 0 && td > 0 then ", " else "")
        ++ (if td > 0 then "- " ++ toString td ++ " 行删除" else "")
    else base
  withCounts ++ "\n" ++ "💡 行号格式: 旧行号 新行号 内容\n"

/-- Message for an empty rendering (diff.rs 584-590). -/
def noDiffMsg : String := "ℹ️ 没有发现文件差异\n"

/-- Result of format_diff_output: the classified rendered lines, the final
per-file counters, and the returned text. -/
structure FmtResult where
  lines : List OutLine
  stats : FileStats
  text : String

/-- DiffOperations::format_diff_output (diff.rs 303-595): pre-pass over the
deltas, fold of the print callback over the line stream, end-of-stream
buffer resolution, then the no-difference message or the rendering plus
the statistics summary. -/
def format_diff_output (d : DiffInput) : FmtResult :=
  let st0 : FmtState :=
    { currentFile := ""
      fileStats := initFileStats d.deltas
      oldLineNum := 1
      newLineNum := 1
      hunkInitialized := false
      pendingDeletions := []
      pendingAdditions := []
      inNewlineContext := false
      outs := [] }
  let st1 := finalFlush (processEvents st0 d.events)
  { lines := st1.outs
    stats := st1.fileStats
    text :=
      if renderOuts st1.outs = "" then noDiffMsg
      else renderOuts st1.outs ++ generate_diff_summary st1.fileStats }

/-- Count of classified rendered lines of one kind within one file
section: the per-file quantity a re-parse of the rendered body recovers. -/
def countKind (ls : List OutLine) (k : OutKind) (f : String) : Nat :=
  (ls.filter (fun l => l.kind = k && l.file = f)).length

/-- Key list of the per-file counter map. -/
def statsKeys (fs : FileStats) : List String := fs.map (fun e => e.1)

/-- The re-parse invariant: every tracked per-file counter pair equals the
number of rendered addition/deletion lines of that file section. -/
def StatsMatch (fs : FileStats) (ls : List OutLine) : Prop :=
  ∀ f a b, (f, a, b) ∈ fs →
    a = (countKind ls .addLine f : Int) ∧
    b = (countKind ls .delLine f : Int)

/-- Sample diff for the C8 witness: one modified file, one hunk, one
context line, one deletion and one addition. -/
def sampleDiff : DiffInput :=
  { deltas := [some "m.txt"]
    events :=
      [⟨⟨some "m.txt", .modified⟩, none, 'F', "diff --git a/m.txt b/m.txt\n"⟩,
       ⟨⟨some "m.txt", .modified⟩, some ⟨1, 2, 1, 2⟩, 'H', "@@ -1,2 +1,2 @@\n"⟩,
       ⟨⟨some "m.txt", .modified⟩, some ⟨1, 2, 1, 2⟩, ' ', "keep\n"⟩,
       ⟨⟨some "m.txt", .modified⟩, some ⟨1, 2, 1, 2⟩, '-', "old\n"⟩,
       ⟨⟨some "m.txt", .modified⟩, some ⟨1, 2, 1, 2⟩, '+', "new\n"⟩] }

/- === Backend repository state model (spec section 6) and the
branch-isolation / checkpoint-lifecycle layer (src/git_ops.rs,
src/services/checkpoint_service.rs) === -/

/-- The state of the HEAD reference: attached to a branch, a symbolic
reference to a branch that has no commit yet (unborn), or detached. -/
inductive HeadState
  | onBranch (name : String)
  | unborn (name : String)
  | detached (commitHash : String)
deriving DecidableEq, Repr

/-- Modelled from the spec: the on-disk repository state owned by the
external backend (spec section 6).  Branches map names to tip hashes;
commits are looked up by hash; the index and working tree are abstract
tree snapshots; `statusDirty` is the backend status observation
(`statuses` with untracked included) at operation entry and
`hasNonIgnored` its ignoring-excluded variant; `setHeadFailures` is a
fault oracle listing refnames on which `repo.set_head` fails, making
backend failure of the head switch expressible. -/
structure RepoState where
  head : HeadState
  branches : List (String × String)
  commits : List CommitRec
  indexTree : Nat
  workdirTree : Nat
  statusDirty : Bool
  hasNonIgnored : Bool
  setHeadFailures : List String
deriving DecidableEq, Repr

/-- The reserved branch name (types.rs). -/
def CCG_BRANCH_NAME : String := "ccg"

/-- The initial-commit message (types.rs). -/
def DEFAULT_COMMIT_MESSAGE : String := "Initial commit - Claude Code Checkpoint Guardian init"

/-- The `refs/heads/...` ref of a branch name. -/
def branchRef (b : String) : String := "refs/heads/" ++ b

/-- Branch tip lookup (`repo.find_branch`). -/
def lookupBranch (s : RepoState) (b : String) : Option String :=
  (s.branches.find? (fun e => e.1 = b)).map (fun e => e.2)

/-- Commit lookup by hash (`repo.find_commit`). -/
def lookupCommit (s : RepoState) (h : String) : Option CommitRec :=
  s.commits.find? (fun c => c.hash = h)

/-- The commit HEAD peels to, when any. -/
def headCommitRec (s : RepoState) : Option CommitRec :=
  match s.head with
  | .onBranch b => (lookupBranch s b).bind (lookupCommit s)
  | .unborn _ => none
  | .detached h => lookupCommit s h

/-- GitOperations::get_current_branch_name (git_ops.rs 383-407): the
branch name, "HEAD" when detached, and the "main" fallback on an unborn
repository. -/
def get_current_branch_name (s : RepoState) : String :=
  match s.head with
  | .onBranch b => b
  | .unborn _ => "main"
  | .detached _ => "HEAD"

/-- The branch name a `refs/heads/...` refname designates. -/
def refBranchName (r : String) : String :=
  if strStartsWith r "refs/heads/" then String.mk (r.toList.drop 11) else r

/-- Modelled from the spec: the backend primitive `repo.set_head` — point
HEAD at the given ref, attached when the branch exists and unborn
otherwise, failing on refnames listed in the fault oracle. -/
def setHead (s : RepoState) (refname : String) : Except GitErr RepoState :=
  if s.setHeadFailures.contains refname then
    .error ⟨.generic, "set_head failed"⟩
  else if (lookupBranch s (refBranchName refname)).isSome then
    .ok { s with head := .onBranch (refBranchName refname) }
  else
    .ok { s with head := .unborn (refBranchName refname) }

/-- Branch lookup with the backend NotFound code. -/
def findBranch (s : RepoState) (b : String) : Except GitErr String :=
  match lookupBranch s b with
  | some tip => .ok tip
  | none => .error ⟨.notFound, "branch not found"⟩

/-- GitOperations::ensure_ccg_branch (git_ops.rs 572-596): if not already
on the reserved branch, find it and point HEAD at it; return the branch
that was current before. -/
def ensure_ccg_branch (s : RepoState) : Except CheckpointError String × RepoState :=
  let current := get_current_branch_name s
  if current ≠ CCG_BRANCH_NAME then
    match findBranch s CCG_BRANCH_NAME with
    | .error e => (.error (.gitOperationFailed e), s)
    | .ok _ =>
        match setHead s (branchRef CCG_BRANCH_NAME) with
        | .error e => (.error (.gitOperationFailed e), s)
        | .ok s₁ => (.ok current, s₁)
  else (.ok current, s)

/-- GitOperations::restore_original_branch (git_ops.rs 599-620): point
HEAD back at the original branch unless it is the reserved branch; a
set_head failure is returned (the caller decides whether to warn). -/
def restore_original_branch (s : RepoState) (original : String) :
    Except CheckpointError Unit × RepoState :=
  if original ≠ CCG_BRANCH_NAME then
    match setHead s (branchRef original) with
    | .error e => (.error (.gitOperationFailed e), s)
    | .ok s₁ => (.ok (), s₁)
  else (.ok (), s)

/-- GitOperations::has_uncommitted_changes (git_ops.rs 424-432): the
backend statuses observation, untracked files included. -/
def has_uncommitted_changes (s : RepoState) : Bool := s.statusDirty

/-- GitOperations::get_parent_commit (git_ops.rs 663-669). -/
def get_parent_commit (s : RepoState) : Except CheckpointError (Option CommitRec) :=
  match s.head with
  | .unborn _ => .error (.gitOperationFailed ⟨.unbornBranch, "reference unborn"⟩)
  | .onBranch b => .ok ((lookupBranch s b).bind (lookupCommit s))
  | .detached h => .ok (lookupCommit s h)

/-- GitOperations::has_changes_to_commit (git_ops.rs 671-706): with no
parent, any non-ignored file counts; otherwise the tree written from the
working directory is diffed against the parent tree (a non-empty delta
list is exactly a differing tree). -/
def has_changes_to_commit (s : RepoState) : Except CheckpointError Bool :=
  match get_parent_commit s with
  | .error e => .error e
  | .ok none => .ok s.hasNonIgnored
  | .ok (some parent) => .ok (decide (parent.tree ≠ s.workdirTree))

/-- Hashes of commits created by the model, distinct by construction. -/
def mkHash (n : Nat) : String := "@" ++ toString n

/-- Advance one branch tip (`reference.set_target` and commit-on-branch). -/
def updateBranchTip (s : RepoState) (b newTip : String) : RepoState :=
  { s with branches := s.branches.map (fun e => if e.1 = b then (e.1, newTip) else e) }

/-- Modelled from the spec: the backend `repo.commit(Some("HEAD"), ...)`
primitive — append the new commit object and advance the reference HEAD
points to, creating the branch when HEAD is unborn. -/
def commitToHead (s : RepoState) (message : String) (tree : Nat)
    (parent : Option String) : RepoState × String :=
  let newHash := mkHash s.commits.length
  let c : CommitRec :=
    { hash := newHash, message := message, tree := tree, parent := parent,
      time := Int.ofNat s.commits.length }
  let s₁ := { s with commits := s.commits ++ [c] }
  match s.head with
  | .onBranch b => (updateBranchTip s₁ b newHash, newHash)
  | .unborn b =>
      ({ s₁ with branches := s₁.branches ++ [(b, newHash)], head := .onBranch b }, newHash)
  | .detached _ => ({ s₁ with head := .detached newHash }, newHash)

/-- GitOperations::create_commit_internal (git_ops.rs 120-158): refuse
when nothing changed; otherwise stage everything (the index becomes the
working tree), write the tree, and commit it onto HEAD with the current
head commit as parent. -/
def create_commit_internal (s : RepoState) (message : String) :
    Except CheckpointError String × RepoState :=
  match has_changes_to_commit s with
  | .error e => (.error e, s)
  | .ok false => (.error .noChangesToCommit, s)
  | .ok true =>
      let s₁ := { s with indexTree := s.workdirTree }
      match get_parent_commit s₁ with
      | .error e => (.error e, s₁)
      | .ok parent =>
          let out := commitToHead s₁ message s₁.workdirTree (parent.map (fun c => c.hash))
          (.ok out.2, out.1)

/-- GitOperations::create_initial_commit (git_ops.rs 435-475): commit the
staged working tree (or the empty index when no non-ignored file exists)
as a parentless commit onto HEAD. -/
def create_initial_commit (s : RepoState) : Except CheckpointError String × RepoState :=
  let pair :=
    if ¬ s.hasNonIgnored then (s.indexTree, s)
    else (s.workdirTree, { s with indexTree := s.workdirTree })
  let out := commitToHead pair.2 DEFAULT_COMMIT_MESSAGE pair.1 none
  (.ok out.2, out.1)

/-- GitOperations::create_or_get_checkpoints_branch (git_ops.rs 75-109). -/
def create_or_get_checkpoints_branch (s : RepoState) :
    Except CheckpointError Unit × RepoState :=
  match lookupBranch s CCG_BRANCH_NAME with
  | some _ => (.ok (), s)
  | none =>
      match headCommitRec s with
      | some c =>
          (.ok (), { s with branches := s.branches ++ [(CCG_BRANCH_NAME, c.hash)] })
      | none =>
          match create_initial_commit s with
          | (.error e, s₁) => (.error e, s₁)
          | (.ok _, s₁) =>
              match lookupBranch s₁ CCG_BRANCH_NAME with
              | some _ => (.ok (), s₁)
              | none => (.error (.gitOperationFailed ⟨.notFound, "branch not found"⟩), s₁)

/-- GitOperations::init_checkpoints (git_ops.rs 69-72). -/
def init_checkpoints (s : RepoState) : Except CheckpointError Unit × RepoState :=
  create_or_get_checkpoints_branch s

/-- GitOperations::create_checkpoint (git_ops.rs 112-117): ensure the
reserved branch, commit, then restore the original branch — propagating a
restore failure with the question-mark operator. -/
def GitOps_create_checkpoint (s : RepoState) (message : String) :
    Except CheckpointError String × RepoState :=
  match ensure_ccg_branch s with
  | (.error e, s₁) => (.error e, s₁)
  | (.ok original, s₁) =>
      let res := create_commit_internal s₁ message
      match restore_original_branch res.2 original with
      | (.error e, s₂) => (.error e, s₂)
      | (.ok _, s₂) => (res.1, s₂)

/-- Ancestry walk by parent hashes with fuel (the revwalk from a commit;
checkpoint history is linear, spec section 3, so time-sorted traversal is
the parent chain). -/
def ancestryFrom (s : RepoState) : Nat → String → List CommitRec
  | 0, _ => []
  | fuel + 1, h =>
      match lookupCommit s h with
      | none => []
      | some c =>
          c :: (match c.parent with
                | some p => ancestryFrom s fuel p
                | none => [])

/-- The revwalk from HEAD (`revwalk.push_head()`), newest first. -/
def stateAncestry (s : RepoState) : List CommitRec :=
  match headCommitRec s with
  | some c => ancestryFrom s (s.commits.length + 1) c.hash
  | none => []

/-- GitOperations::get_head_commit (git_ops.rs 350-359). -/
def get_head_commit (s : RepoState) : Except CheckpointError CommitRec :=
  match s.head with
  | .unborn _ => .error (.gitOperationFailed ⟨.unbornBranch, "reference unborn"⟩)
  | _ =>
      match headCommitRec s with
      | some c => .ok c
      | none => .error (.gitOperationFailed ⟨.notFound, "commit not found"⟩)

/-- GitOperations::count_commits_between (git_ops.rs 362-380): commits
reachable from `to` but not from `from`. -/
def count_commits_between (s : RepoState) (fromHash toHash : String) :
    Except CheckpointError Nat :=
  match find_commit (stateAncestry s) fromHash with
  | .error e => .error e
  | .ok fromC =>
      match find_commit (stateAncestry s) toHash with
      | .error e => .error e
      | .ok toC =>
          let toAnc := ancestryFrom s (s.commits.length + 1) toC.hash
          let fromAnc := ancestryFrom s (s.commits.length + 1) fromC.hash
          .ok ((toAnc.filter (fun c => ¬ fromAnc.any (fun d => d.hash = c.hash))).length)

/-- GitOperations::reset_branch_to_checkpoint (git_ops.rs 315-347): find
the target, refuse on a dirty tree, then move the current branch tip to
the target and hard-reset index and working tree to its tree. -/
def reset_branch_to_checkpoint (s : RepoState) (hash : String) :
    Except CheckpointError Unit × RepoState :=
  match find_commit (stateAncestry s) hash with
  | .error e => (.error e, s)
  | .ok commit =>
      if has_uncommitted_changes s then (.error .uncommittedChanges, s)
      else
        match s.head with
        | .unborn _ => (.error (.gitOperationFailed ⟨.unbornBranch, "reference unborn"⟩), s)
        | hd =>
            let branchName :=
              match hd with
              | .onBranch b => b
              | _ => CCG_BRANCH_NAME
            match lookupBranch s branchName with
            | none => (.error (.gitOperationFailed ⟨.notFound, "branch not found"⟩), s)
            | some _ =>
                let s₁ := updateBranchTip s branchName commit.hash
                (.ok (), { s₁ with indexTree := commit.tree, workdirTree := commit.tree })

/-- Events marking the branch-isolation protocol steps at the service
layer: the enter() / leave() calls of the spec (section 4.2) and the run
of the wrapped operation body. -/
inductive Ev
  | enter
  | bodyRun
  | leave
deriving DecidableEq, Repr

/-- The enter phase of CheckpointService::execute_on_ccg_branch
(checkpoint_service.rs 22-48): ensure the reserved branch, bootstrapping
with init_checkpoints and retrying once when the branch is missing or the
repository has no commits.  One `.enter` event per ensure call. -/
def enterPhase (s : RepoState) : Except CheckpointError String × RepoState × List Ev :=
  match ensure_ccg_branch s with
  | (.ok b, s₁) => (.ok b, s₁, [.enter])
  | (.error (.branchNotFound _), s₁) =>
      (match init_checkpoints s₁ with
       | (.error e₂, s₂) => (.error e₂, s₂, [.enter])
       | (.ok _, s₂) =>
           match ensure_ccg_branch s₂ with
           | (r, s₃) => (r, s₃, [.enter, .enter]))
  | (.error (.gitOperationFailed e), s₁) =>
      if e.code = .notFound ∨ e.code = .unbornBranch then
        match init_checkpoints s₁ with
        | (.error e₂, s₂) => (.error e₂, s₂, [.enter])
        | (.ok _, s₂) =>
            match ensure_ccg_branch s₂ with
            | (r, s₃) => (r, s₃, [.enter, .enter])
      else (.error (.gitOperationFailed e), s₁, [.enter])
  | (.error e, s₁) => (.error e, s₁, [.enter])

/-- CheckpointService::execute_on_ccg_branch (checkpoint_service.rs
17-66): enter, run the operation, then restore the original branch; a
restore failure is only warned about and the operation result is
returned unchanged. -/
def execute_on_ccg_branch {α : Type} (s : RepoState)
    (op : RepoState → Except CheckpointError α × RepoState) :
    Except CheckpointError α × RepoState × List Ev :=
  match enterPhase s with
  | (.error e, s₁, t) => (.error e, s₁, t)
  | (.ok original, s₁, t) =>
      let res := op s₁
      let rr := restore_original_branch res.2 original
      (res.1, rr.2, t ++ [.bodyRun, .leave])

/-- The create body (checkpoint_service.rs 120-151): commit with the
given or default message, recovering NoChangesToCommit as an
informational empty-hash success. -/
def createBody (toolInput : Option String) (s : RepoState) :
    Except CheckpointError String × RepoState :=
  let message := toolInput.getD "Checkpoint created without a specific message."
  match GitOps_create_checkpoint s message with
  | (.ok hash, s₁) => (.ok hash, s₁)
  | (.error .noChangesToCommit, s₁) => (.ok "", s₁)
  | (.error e, s₁) => (.error e, s₁)

/-- CheckpointService::create_checkpoint. -/
def Service_create (toolInput : Option String) (s : RepoState) :
    Except CheckpointError String × RepoState × List Ev :=
  execute_on_ccg_branch s (createBody toolInput)

/-- Backend timestamp formatting (chrono, an external collaborator),
abstracted as the decimal rendering of the timestamp. -/
def fmtTimestamp (t : Int) : String := toString t

/-- The raw-input marker stripped from list entries (git_ops.rs 197-199). -/
def rawInputMarker : String := "Checkpoint created with raw input: "

/-- One formatted list entry (git_ops.rs 185-207, styling erased). -/
def listEntry (c : CommitRec) : String :=
  let message := firstLineOr "No commit message" c.message
  let finalMessage :=
    if strStartsWith message rawInputMarker then message.drop rawInputMarker.length
    else message
  shortHash c.hash ++ " " ++ fmtTimestamp c.time ++ " " ++ finalMessage

/-- GitOperations::list_checkpoints (git_ops.rs 161-211). -/
def GitOps_list_checkpoints (s : RepoState) (limit : Nat) :
    Except CheckpointError (List String) :=
  match s.head with
  | .unborn _ => .error (.gitOperationFailed ⟨.unbornBranch, "reference unborn"⟩)
  | _ => .ok (((stateAncestry s).take limit).map listEntry)

/-- The list body (checkpoint_service.rs 154-176). -/
def listBody (limit : Nat) (s : RepoState) :
    Except CheckpointError Unit × RepoState :=
  match GitOps_list_checkpoints s limit with
  | .error e => (.error e, s)
  | .ok _ => (.ok (), s)

/-- CheckpointService::list_checkpoints. -/
def Service_list (limit : Nat) (s : RepoState) :
    Except CheckpointError Unit × RepoState × List Ev :=
  execute_on_ccg_branch s (listBody limit)

/-- The show body (checkpoint_service.rs 278-310): resolve the hash, then
render details; an InvalidHash resolution error is displayed and recovered
as success.  The rendering itself (GitOperations::show_checkpoint)
composes read-only backend queries and the diff renderer, and is passed
as a read-only oracle. -/
def showBody (render : RepoState → String → Bool → Except CheckpointError String)
    (hash : String) (showDiff : Bool) (s : RepoState) :
    Except CheckpointError Unit × RepoState :=
  match find_commit (stateAncestry s) hash with
  | .ok _ =>
      match render s hash showDiff with
      | .ok _ => (.ok (), s)
      | .error e => (.error e, s)
  | .error (.invalidHash _) => (.ok (), s)
  | .error e => (.error e, s)

/-- CheckpointService::show_checkpoint. -/
def Service_show (render : RepoState → String → Bool → Except CheckpointError String)
    (hash : String) (showDiff : Bool) (s : RepoState) :
    Except CheckpointError Unit × RepoState × List Ev :=
  execute_on_ccg_branch s (showBody render hash showDiff)

/-- The diff body (checkpoint_service.rs 313-350): delegates to
GitOperations::diff_checkpoints (read-only, passed as an oracle). -/
def diffBody (render : RepoState → String → Option String → Except CheckpointError String)
    (hashA : String) (hashB : Option String) (s : RepoState) :
    Except CheckpointError Unit × RepoState :=
  match render s hashA hashB with
  | .ok _ => (.ok (), s)
  | .error e => (.error e, s)

/-- CheckpointService::diff_checkpoints. -/
def Service_diff (render : RepoState → String → Option String → Except CheckpointError String)
    (hashA : String) (hashB : Option String) (s : RepoState) :
    Except CheckpointError Unit × RepoState × List Ev :=
  execute_on_ccg_branch s (diffBody render hashA hashB)

/-- CheckpointService::restore_checkpoint (checkpoint_service.rs
179-275): record the current branch, ensure the reserved branch, abort on
a dirty tree (restoring the original branch first if it differs), then
resolve the target, count the commits that will be dropped, and hard
reset.  On success the user deliberately remains on the reserved branch. -/
def Service_restore (hash : String) (s : RepoState) :
    Except CheckpointError Unit × RepoState × List Ev :=
  let original := get_current_branch_name s
  match ensure_ccg_branch s with
  | (.error e, s₁) => (.error e, s₁, [.enter])
  | (.ok _, s₁) =>
      if has_uncommitted_changes s₁ then
        if original ≠ CCG_BRANCH_NAME then
          let rr := restore_original_branch s₁ original
          (.error .uncommittedChanges, rr.2, [.enter, .leave])
        else
          (.error .uncommittedChanges, s₁, [.enter])
      else
        match find_commit (stateAncestry s₁) hash with
        | .error e => (.error e, s₁, [.enter])
        | .ok target =>
            match get_head_commit s₁ with
            | .error e => (.error e, s₁, [.enter])
            | .ok headC =>
                match count_commits_between s₁ target.hash headC.hash with
                | .error e => (.error e, s₁, [.enter])
                | .ok _ =>
                    match reset_branch_to_checkpoint s₁ hash with
                    | (.error e, s₂) => (.error e, s₂, [.enter])
                    | (.ok _, s₂) => (.ok (), s₂, [.enter])

/-- The commit object a successful create_commit_internal appends. -/
def newCheckpoint (s : RepoState) (msg parentHash : String) : CommitRec :=
  { hash := mkHash s.commits.length, message := msg, tree := s.workdirTree,
    parent := some parentHash, time := Int.ofNat s.commits.length }

/-- The repository state after a successful checkpoint commit on the
reserved branch: the index staged to the working tree, the new checkpoint
appended, and the reserved branch tip advanced to its hash (the composite
of create_commit_internal's success path). -/
def afterFirstCreate (s : RepoState) (msg parentHash : String) : RepoState :=
  updateBranchTip
    { s with indexTree := s.workdirTree,
             commits := s.commits ++ [newCheckpoint s msg parentHash] }
    CCG_BRANCH_NAME (mkHash s.commits.length)

/-- The backend resources a failed restore must leave untouched: branch
tips, commit objects, index and working tree. -/
def sameBackend (s t : RepoState) : Prop :=
  t.branches = s.branches ∧ t.commits = s.commits ∧
  t.indexTree = s.indexTree ∧ t.workdirTree = s.workdirTree


/- === Concrete sample data used by witnesses and counterexamples === -/

/-- Sample hash: "ab" followed by 38 ones. -/
def hashAb1 : String := String.mk ('a' :: 'b' :: List.replicate 38 '1')

/-- Sample hash: "ab" followed by 38 twos. -/
def hashAb2 : String := String.mk ('a' :: 'b' :: List.replicate 38 '2')

/-- Sample hash: 40 times the letter c. -/
def hashCc : String := String.mk (List.replicate 40 'c')

/-- Sample commit with hash `hashAb1`. -/
def commitAb1 : CommitRec :=
  { hash := hashAb1, message := "first message line\nsecond line", tree := 10,
    parent := none, time := 100 }

/-- Sample commit with hash `hashAb2`. -/
def commitAb2 : CommitRec :=
  { hash := hashAb2, message := "another checkpoint", tree := 11,
    parent := some hashAb1, time := 200 }

/-- Sample commit with hash `hashCc`. -/
def commitCc : CommitRec :=
  { hash := hashCc, message := "third checkpoint", tree := 12,
    parent := some hashAb2, time := 300 }

/-- Sample base commit for the state-model witnesses. -/
def commitBase : CommitRec :=
  { hash := hashAb1, message := "base checkpoint", tree := 10,
    parent := none, time := 100 }

/-- Sample tip commit on top of `commitBase`. -/
def commitTop : CommitRec :=
  { hash := hashCc, message := "top checkpoint", tree := 11,
    parent := some hashAb1, time := 200 }

/-- Sample repository on branch main with one checkpoint and a pending
change, whose main-branch ref is poisoned so that leave() fails. -/
def sampleRepo : RepoState :=
  { head := .onBranch "main"
    branches := [("main", hashAb1), ("ccg", hashAb1)]
    commits := [commitBase]
    indexTree := 10
    workdirTree := 11
    statusDirty := false
    hasNonIgnored := true
    setHeadFailures := [branchRef "main"] }

/-- Sample repository like `sampleRepo` but with a healthy main ref. -/
def cleanRepo : RepoState :=
  { head := .onBranch "main"
    branches := [("main", hashAb1), ("ccg", hashAb1)]
    commits := [commitBase]
    indexTree := 10
    workdirTree := 11
    statusDirty := false
    hasNonIgnored := true
    setHeadFailures := [] }

/-- Sample two-checkpoint repository with a clean working tree. -/
def restoreRepo : RepoState :=
  { head := .onBranch "main"
    branches := [("main", hashCc), ("ccg", hashCc)]
    commits := [commitBase, commitTop]
    indexTree := 11
    workdirTree := 11
    statusDirty := false
    hasNonIgnored := true
    setHeadFailures := [] }

/-- The same repository with pending uncommitted modifications. -/
def dirtyRepo : RepoState := { restoreRepo with statusDirty := true }

end CcGuardian

namespace CcGuardian

/- === Theorems === -/

/-- A boolean substring check holds whenever the pattern is an infix. -/
theorem listIsInfixOf_of_isInfix {pat l : List Char} (h : pat <:+: l) :
    listIsInfixOf pat l = true := by
  induction l with
  | nil =>
    rcases h with ⟨s, t, hst⟩
    simp only [List.append_eq_nil] at hst
    simp [listIsInfixOf, hst.1.2]
  | cons c rest ih =>
    rcases h with ⟨s, t, hst⟩
    cases s with
    | nil =>
      have hpfx : pat <+: c :: rest := ⟨t, by simpa using hst⟩
      simp [listIsInfixOf, List.isPrefixOf_iff_prefix.2 hpfx]
    | cons d s₂ =>
      rw [List.cons_append, List.cons_append] at hst
      injection hst with h1 h2
      have hrest : pat <:+: rest := ⟨s₂, t, h2⟩
      simp [listIsInfixOf, ih hrest]

/-- Char-list view of string concatenation. -/
theorem strToList_append (a b : String) : (a ++ b).toList = a.toList ++ b.toList := rfl

/-- Substring check via an infix witness, at the string level. -/
theorem strHasSub_of_isInfix {s pat : String} (h : pat.toList <:+: s.toList) :
    strHasSub s pat = true :=
  listIsInfixOf_of_isInfix h

/-- Each listed candidate line is an infix of the whole candidate listing. -/
theorem candidateLine_infix_candidateLines (l : List CommitRec) (c : CommitRec)
    (hc : c ∈ l) :
    ("  " ++ shortHash c.hash ++ " - " ++ firstLineOr "No message" c.message
        ++ "\n").toList <:+: (candidateLines l).toList := by
  induction l with
  | nil => cases hc
  | cons d rest ih =>
    rcases List.mem_cons.1 hc with rfl | hmem
    · refine List.IsPrefix.isInfix ⟨(candidateLines rest).toList, ?_⟩
      rw [candidateLines]
      simp [strToList_append, List.append_assoc]
    · refine (ih hmem).trans (List.IsSuffix.isInfix ⟨("  " ++ shortHash d.hash ++ " - "
        ++ firstLineOr "No message" d.message ++ "\n").toList, ?_⟩)
      rw [candidateLines]
      simp [strToList_append, List.append_assoc]

/-- C4: for a query `p` with `2 ≤ len p < 40`, resolution walks the
ancestry and returns the unique commit whose full hash starts with `p`
when exactly one exists, fails with `CheckpointNotFound p` when none
exists, and fails with an ambiguity `InvalidHash` error when several
exist — in both the git_ops.rs and the commit.rs resolver. -/
theorem find_commit_prefix_resolution (anc : List CommitRec) (p : String)
    (h2 : 2 ≤ p.length) (h40 : p.length < 40) :
    (matchesOf anc p = [] →
        find_commit anc p = .error (.checkpointNotFound p) ∧
        CommitOps_find_commit anc p = .error (.checkpointNotFound p)) ∧
    (∀ c, matchesOf anc p = [c] →
        find_commit anc p = .ok c ∧
        CommitOps_find_commit anc p = .ok c) ∧
    (2 ≤ (matchesOf anc p).length →
        find_commit anc p = .error (.invalidHash (ambiguousShortMsg p)) ∧
        CommitOps_find_commit anc p
          = .error (.invalidHash (ambiguousDetailMsg p (matchesOf anc p)))) := by
  have hdl : directLookup anc p = none := by
    unfold directLookup isFullHash
    have : p.length ≠ 40 := by omega
    simp [this]
  refine ⟨?_, ?_, ?_⟩
  · intro hm
    unfold find_commit CommitOps_find_commit
    simp [hdl, hm, h2, h40]
  · intro c hm
    unfold find_commit CommitOps_find_commit
    simp [hdl, hm, h2, h40]
  · intro hlen
    unfold find_commit CommitOps_find_commit
    rw [hdl]
    simp only [h2, h40, and_self, if_pos]
    match hm : matchesOf anc p with
    | [] => rw [hm] at hlen; simp at hlen
    | [c] => rw [hm] at hlen; simp at hlen
    | c₁ :: c₂ :: rest => exact ⟨rfl, rfl⟩

/-- Witness for C4: on a two-commit ancestry the query "ab" has exactly one
match and resolves to it. -/
theorem find_commit_prefix_resolution_witness :
    2 ≤ ("ab" : String).length ∧ ("ab" : String).length < 40 ∧
    matchesOf [commitAb1, commitCc] "ab" = [commitAb1] ∧
    find_commit [commitAb1, commitCc] "ab" = .ok commitAb1 :=
  ⟨by decide, by decide,
   by decide,
   ((find_commit_prefix_resolution [commitAb1, commitCc] "ab"
      (by decide) (by decide)).2.1 commitAb1 (by decide)).1⟩

/-- C10: a syntactically valid 40-hex query with no matching commit fails
with `InvalidHash`, and the `CheckpointNotFound` outcome is reachable only
for prefix queries of length 2 to 39 with an empty ancestry match set. -/
theorem find_commit_full_hash_invalid (anc : List CommitRec) (q : String)
    (hfull : isFullHash q = true) (hmiss : ∀ c ∈ anc, c.hash ≠ q) :
    (find_commit anc q = .error (.invalidHash (invalidFormatMsg q)) ∧
      CommitOps_find_commit anc q = .error (.invalidHash (invalidFormatMsg q))) ∧
    (∀ anc₂ q₂ e, find_commit anc₂ q₂ = .error (.checkpointNotFound e) →
      e = q₂ ∧ 2 ≤ q₂.length ∧ q₂.length < 40 ∧ matchesOf anc₂ q₂ = []) := by
  constructor
  · have hlen : q.length = 40 := by
      unfold isFullHash at hfull
      exact of_decide_eq_true (Bool.and_elim_left hfull)
    have hdl : directLookup anc q = none := by
      unfold directLookup
      rw [hfull]
      simp only [if_true]
      rw [List.find?_eq_none]
      intro c hc
      simpa using hmiss c hc
    unfold find_commit CommitOps_find_commit
    rw [hdl]
    have h40 : ¬ (2 ≤ q.length ∧ q.length < 40) := by omega
    have h2 : ¬ (q.length < 2) := by omega
    simp [h40, h2]
  · intro anc₂ q₂ e hres
    unfold find_commit at hres
    rcases hdl : directLookup anc₂ q₂ with _ | c
    · rw [hdl] at hres
      by_cases hc : 2 ≤ q₂.length ∧ q₂.length < 40
      · rw [if_pos hc] at hres
        rcases hm : matchesOf anc₂ q₂ with _ | ⟨c₁, _ | ⟨c₂, rest⟩⟩ <;>
          rw [hm] at hres <;> simp_all
      · rw [if_neg hc] at hres
        simp [invalidFormatMsg] at hres
    · rw [hdl] at hres
      simp at hres

/-- Witness for C10: an unmatched syntactically valid full hash. -/
theorem find_commit_full_hash_invalid_witness :
    isFullHash hashCc = true ∧
    find_commit [commitAb1, commitAb2] hashCc
      = .error (.invalidHash (invalidFormatMsg hashCc)) :=
  ⟨by decide,
   ((find_commit_full_hash_invalid [commitAb1, commitAb2] hashCc
      (by decide) (by decide)).1).1⟩


/-- C5 counterexample: for the two-match query "ab", the resolver actually
used by restore/show (git_ops.rs find_commit) and the one used by diff
(diff.rs find_commit_by_hash) raise ambiguity errors whose payload does not
carry the candidate short-hash or first-message-line of any match. -/
theorem ambiguity_error_counterexample :
    find_commit [commitAb1, commitAb2] "ab"
      = .error (.invalidHash (ambiguousShortMsg "ab")) ∧
    DiffOps_find_commit_by_hash [commitAb1, commitAb2] "ab"
      = .error (.invalidHash (diffAmbiguousMsg "ab")) ∧
    strHasSub (ambiguousShortMsg "ab") (shortHash commitAb1.hash) = false ∧
    strHasSub (ambiguousShortMsg "ab") (firstLineOr "No message" commitAb1.message) = false ∧
    strHasSub (diffAmbiguousMsg "ab") (shortHash commitAb1.hash) = false ∧
    strHasSub (diffAmbiguousMsg "ab") (firstLineOr "No message" commitAb1.message) = false := by
  decide

/-- C5 amended: the detailed ambiguity payload — the first five
(short-hash, first-message-line) candidate pairs plus the count of the
remaining matches — is built only by the commit.rs resolver
(CommitOperations::find_commit, unused by the lifecycle operations); the
git_ops.rs and diff.rs resolvers used by restore/show/diff report fixed
generic ambiguity messages naming only the query. -/
theorem ambiguity_error_candidate_detail (anc : List CommitRec) (p : String)
    (h2 : 2 ≤ p.length) (h40 : p.length < 40)
    (hlen : 2 ≤ (matchesOf anc p).length) :
    CommitOps_find_commit anc p
      = .error (.invalidHash (ambiguousDetailMsg p (matchesOf anc p))) ∧
    (∀ c ∈ (matchesOf anc p).take 5,
        strHasSub (ambiguousDetailMsg p (matchesOf anc p)) (shortHash c.hash) = true ∧
        strHasSub (ambiguousDetailMsg p (matchesOf anc p))
          (firstLineOr "No message" c.message) = true) ∧
    (5 < (matchesOf anc p).length →
        strHasSub (ambiguousDetailMsg p (matchesOf anc p))
          (toString ((matchesOf anc p).length - 5)) = true) ∧
    find_commit anc p = .error (.invalidHash (ambiguousShortMsg p)) ∧
    DiffOps_find_commit_by_hash anc p
      = .error (.invalidHash (diffAmbiguousMsg p)) := by
  have hdl : directLookup anc p = none := by
    unfold directLookup isFullHash
    have : p.length ≠ 40 := by omega
    simp [this]
  have hmain : CommitOps_find_commit anc p
      = .error (.invalidHash (ambiguousDetailMsg p (matchesOf anc p))) := by
    unfold CommitOps_find_commit
    rw [hdl]
    simp only [h2, h40, and_self, if_pos]
    match hm : matchesOf anc p with
    | [] => rw [hm] at hlen; simp at hlen
    | [c] => rw [hm] at hlen; simp at hlen
    | c₁ :: c₂ :: rest => rfl
  have hsub : ∀ c ∈ (matchesOf anc p).take 5,
      ("  " ++ shortHash c.hash ++ " - " ++ firstLineOr "No message" c.message
        ++ "\n").toList <:+: (ambiguousDetailMsg p (matchesOf anc p)).toList := by
    intro c hc
    have h1 := candidateLine_infix_candidateLines _ c hc
    refine h1.trans ?_
    unfold ambiguousDetailMsg
    refine List.IsInfix.trans (List.IsSuffix.isInfix
      ⟨("短hash \x27" ++ p ++ "\x27 匹配到多个提交:\n").toList, rfl⟩) ?_
    refine List.IsPrefix.isInfix ⟨((if 5 < (matchesOf anc p).length then
        "  ... 还有 " ++ toString ((matchesOf anc p).length - 5) ++ " 个匹配\n"
      else "") ++ "请使用更长的hash前缀来唯一标识提交").toList, ?_⟩
    simp [strToList_append, List.append_assoc]
  refine ⟨hmain, ?_, ?_, ?_, ?_⟩
  · intro c hc
    constructor
    · refine strHasSub_of_isInfix (List.IsInfix.trans ?_ (hsub c hc))
      exact ⟨("  " : String).toList,
        (" - " ++ firstLineOr "No message" c.message ++ "\n").toList,
        by simp [strToList_append, List.append_assoc]⟩
    · refine strHasSub_of_isInfix (List.IsInfix.trans ?_ (hsub c hc))
      exact ⟨("  " ++ shortHash c.hash ++ " - ").toList, ("\n" : String).toList,
        by simp [strToList_append, List.append_assoc]⟩
  · intro h5
    refine strHasSub_of_isInfix ?_
    unfold ambiguousDetailMsg
    rw [if_pos h5]
    exact ⟨("短hash \x27" ++ p ++ "\x27 匹配到多个提交:\n").toList
        ++ (candidateLines ((matchesOf anc p).take 5)).toList
        ++ ("  ... 还有 " : String).toList,
      (" 个匹配\n" ++ "请使用更长的hash前缀来唯一标识提交").toList,
      by simp [strToList_append, List.append_assoc]⟩
  · unfold find_commit
    rw [hdl]
    simp only [h2, h40, and_self, if_pos]
    match hm : matchesOf anc p with
    | [] => rw [hm] at hlen; simp at hlen
    | [c] => rw [hm] at hlen; simp at hlen
    | c₁ :: c₂ :: rest => rfl
  · unfold DiffOps_find_commit_by_hash
    rw [hdl]
    simp only [h2, h40, and_self, if_pos]
    match hm : matchesOf anc p with
    | [] => rw [hm] at hlen; simp at hlen
    | [c] => rw [hm] at hlen; simp at hlen
    | c₁ :: c₂ :: rest => rfl

/-- Witness for the amended C5 on a concrete two-match ancestry. -/
theorem ambiguity_error_candidate_detail_witness :
    CommitOps_find_commit [commitAb1, commitAb2] "ab"
      = .error (.invalidHash (ambiguousDetailMsg "ab"
          (matchesOf [commitAb1, commitAb2] "ab"))) :=
  (ambiguity_error_candidate_detail [commitAb1, commitAb2] "ab"
    (by decide) (by decide) (by decide)).1


/-- C9 counterexample: stdin carrying the non-empty, non-parsing text " "
produces the fixed "Manual checkpoint" message, not the raw input text. -/
theorem create_message_counterexample :
    createCommitMessage none (fun _ => none) (.data " ") = "Manual checkpoint" ∧
    " " ≠ ("" : String) ∧
    (fun _ => none : String → Option HookData) " " = none ∧
    createCommitMessage none (fun _ => none) (.data " ") ≠ " " := by
  refine ⟨by decide, by decide, rfl, by decide⟩

/-- C9 amended: with no explicit message, a parsing stdin payload yields the
synthesized summary (which carries the tool name and the pretty-printed
original tool arguments); non-blank stdin text that fails to parse is used
verbatim; blank-after-trim stdin text and absent stdin both yield the
literal "Manual checkpoint". -/
theorem create_message_selection (parse : String → Option HookData)
    (raw : String) (d : HookData) :
    (strTrim raw ≠ "" → parse raw = some d →
        createCommitMessage none parse (.data raw) = format_commit_message d ∧
        strHasSub (format_commit_message d) d.tool_name = true ∧
        strHasSub (format_commit_message d) d.tool_input.pretty = true) ∧
    (strTrim raw ≠ "" → parse raw = none →
        createCommitMessage none parse (.data raw) = raw) ∧
    (strTrim raw = "" → createCommitMessage none parse (.data raw) = "Manual checkpoint") ∧
    createCommitMessage none parse .noData = "Manual checkpoint" := by
  refine ⟨?_, ?_, ?_, rfl⟩
  · intro htrim hparse
    refine ⟨by simp [createCommitMessage, htrim, hparse], ?_, ?_⟩
    · refine strHasSub_of_isInfix (List.IsPrefix.isInfix ?_)
      have htitle : d.tool_name.toList <+: (hookTitle d).toList := by
        unfold hookTitle
        split
        · exact List.prefix_refl _
        · exact ⟨(" on " ++ hookFilePath d).toList,
            by simp [strToList_append, List.append_assoc]⟩
      have h1 : (format_commit_message d).toList
          = (hookTitle d).toList
            ++ ("\n\n" ++ hookChanges d ++ "Tool Input:\n" ++ d.tool_input.pretty).toList := by
        rw [format_commit_message]
        simp [strToList_append, List.append_assoc]
      rw [h1]
      exact htitle.trans (List.prefix_append _ _)
    · refine strHasSub_of_isInfix (List.IsSuffix.isInfix ?_)
      refine ⟨(hookTitle d ++ "\n\n" ++ hookChanges d ++ "Tool Input:\n").toList, ?_⟩
      rw [format_commit_message]
      simp [strToList_append, List.append_assoc]
  · intro htrim hparse
    simp [createCommitMessage, htrim, hparse]
  · intro htrim
    simp [createCommitMessage, htrim]

/-- Witness for the amended C9 at the sample payload and each stdin case. -/
theorem create_message_selection_witness :
    createCommitMessage none (fun s => if s = "payload" then some sampleHook else none)
        (.data "payload") = format_commit_message sampleHook ∧
    createCommitMessage none (fun s => if s = "payload" then some sampleHook else none)
        (.data "loose note") = "loose note" ∧
    createCommitMessage none (fun s => if s = "payload" then some sampleHook else none)
        .noData = "Manual checkpoint" :=
  ⟨((create_message_selection (fun s => if s = "payload" then some sampleHook else none)
      "payload" sampleHook).1 (by decide) (by decide)).1,
   (create_message_selection (fun s => if s = "payload" then some sampleHook else none)
      "loose note" sampleHook).2.1 (by decide) (by decide),
   (create_message_selection (fun s => if s = "payload" then some sampleHook else none)
      "loose note" sampleHook).2.2.2⟩


/-- Counting rendered lines distributes over concatenation. -/
theorem countKind_append (ls₁ ls₂ : List OutLine) (k : OutKind) (f : String) :
    countKind (ls₁ ++ ls₂) k f = countKind ls₁ k f + countKind ls₂ k f := by
  simp [countKind, List.filter_append]

/-- Appending lines that are neither additions nor deletions preserves the
re-parse invariant. -/
theorem statsMatch_append_noCount {fs : FileStats} {ls : List OutLine}
    (h : StatsMatch fs ls) (ls₂ : List OutLine)
    (hnc : ∀ l ∈ ls₂, l.kind ≠ OutKind.addLine ∧ l.kind ≠ OutKind.delLine) :
    StatsMatch fs (ls ++ ls₂) := by
  intro f a b hmem
  have hz : ∀ k, k = OutKind.addLine ∨ k = OutKind.delLine → countKind ls₂ k f = 0 := by
    intro k hk
    simp only [countKind, List.length_eq_zero, List.filter_eq_nil_iff]
    intro l hl
    rcases hnc l hl with ⟨h1, h2⟩
    rcases hk with rfl | rfl <;> simp [h1, h2]
  rcases h f a b hmem with ⟨ha, hb⟩
  constructor
  · rw [countKind_append, hz _ (Or.inl rfl)]
    simpa using ha
  · rw [countKind_append, hz _ (Or.inr rfl)]
    simpa using hb

/-- Appending one rendered addition line of file `cf` while bumping the
addition counter of `cf` preserves the re-parse invariant. -/
theorem statsMatch_bumpAdd {fs : FileStats} {ls : List OutLine} {cf : String}
    (h : StatsMatch fs ls) (l : OutLine)
    (hk : l.kind = OutKind.addLine) (hf : l.file = cf) :
    StatsMatch (bumpAdd fs cf) (ls ++ [l]) := by
  intro f a b hmem
  simp only [bumpAdd, List.mem_map] at hmem
  rcases hmem with ⟨⟨ef, ea, eb⟩, he, heq⟩
  rcases h ef ea eb he with ⟨ha, hb⟩
  by_cases hc : ef = cf
  · rw [if_pos hc] at heq
    simp only [Prod.mk.injEq] at heq
    obtain ⟨rfl, rfl, rfl⟩ := heq
    have hcount1 : countKind [l] OutKind.addLine ef = 1 := by
      simp [countKind, hk, hf, hc]
    have hcount2 : countKind [l] OutKind.delLine ef = 0 := by
      simp [countKind, hk]
    refine ⟨?_, ?_⟩ <;> rw [countKind_append] <;> omega
  · rw [if_neg hc] at heq
    simp only [Prod.mk.injEq] at heq
    obtain ⟨rfl, rfl, rfl⟩ := heq
    have hcfne : cf ≠ ef := fun hcc => hc hcc.symm
    have hcount1 : countKind [l] OutKind.addLine ef = 0 := by
      simp [countKind, hk, hf, hcfne]
    have hcount2 : countKind [l] OutKind.delLine ef = 0 := by
      simp [countKind, hk]
    refine ⟨?_, ?_⟩ <;> rw [countKind_append] <;> omega

/-- Deletion analogue of `statsMatch_bumpAdd`. -/
theorem statsMatch_bumpDel {fs : FileStats} {ls : List OutLine} {cf : String}
    (h : StatsMatch fs ls) (l : OutLine)
    (hk : l.kind = OutKind.delLine) (hf : l.file = cf) :
    StatsMatch (bumpDel fs cf) (ls ++ [l]) := by
  intro f a b hmem
  simp only [bumpDel, List.mem_map] at hmem
  rcases hmem with ⟨⟨ef, ea, eb⟩, he, heq⟩
  rcases h ef ea eb he with ⟨ha, hb⟩
  by_cases hc : ef = cf
  · rw [if_pos hc] at heq
    simp only [Prod.mk.injEq] at heq
    obtain ⟨rfl, rfl, rfl⟩ := heq
    have hcount1 : countKind [l] OutKind.delLine ef = 1 := by
      simp [countKind, hk, hf, hc]
    have hcount2 : countKind [l] OutKind.addLine ef = 0 := by
      simp [countKind, hk]
    refine ⟨?_, ?_⟩ <;> rw [countKind_append] <;> omega
  · rw [if_neg hc] at heq
    simp only [Prod.mk.injEq] at heq
    obtain ⟨rfl, rfl, rfl⟩ := heq
    have hcfne : cf ≠ ef := fun hcc => hc hcc.symm
    have hcount1 : countKind [l] OutKind.delLine ef = 0 := by
      simp [countKind, hk, hf, hcfne]
    have hcount2 : countKind [l] OutKind.addLine ef = 0 := by
      simp [countKind, hk]
    refine ⟨?_, ?_⟩ <;> rw [countKind_append] <;> omega

/-- Keys are unchanged by counter bumps. -/
theorem statsKeys_bumpAdd (fs : FileStats) (cf : String) :
    statsKeys (bumpAdd fs cf) = statsKeys fs := by
  induction fs with
  | nil => rfl
  | cons e rest ih =>
      simp only [statsKeys, bumpAdd, List.map_cons, List.map_map] at ih ⊢
      by_cases hc : e.1 = cf <;> simp [hc, ih]

/-- Keys are unchanged by deletion bumps. -/
theorem statsKeys_bumpDel (fs : FileStats) (cf : String) :
    statsKeys (bumpDel fs cf) = statsKeys fs := by
  induction fs with
  | nil => rfl
  | cons e rest ih =>
      simp only [statsKeys, bumpDel, List.map_cons, List.map_map] at ih ⊢
      by_cases hc : e.1 = cf <;> simp [hc, ih]

/-- The deletion loop of the literal fallback preserves the re-parse
invariant and the key list. -/
theorem statsMatch_format_pending_dels (cf : String) (pd : List (String × Int)) :
    ∀ fs ls, StatsMatch fs ls →
      StatsMatch (format_pending_dels cf fs pd).2
        (ls ++ (format_pending_dels cf fs pd).1) ∧
      statsKeys (format_pending_dels cf fs pd).2 = statsKeys fs := by
  induction pd with
  | nil => intro fs ls h; simpa [format_pending_dels] using h
  | cons p rest ih =>
      intro fs ls h
      obtain ⟨content, line⟩ := p
      have h1 : StatsMatch (bumpDel fs cf) (ls ++ [pendingDelLine cf content line]) :=
        statsMatch_bumpDel h _ rfl rfl
      have h2 := ih (bumpDel fs cf) (ls ++ [pendingDelLine cf content line]) h1
      constructor
      · simpa [format_pending_dels, List.append_assoc] using h2.1
      · rw [format_pending_dels]
        rw [h2.2, statsKeys_bumpDel]

/-- The addition loop of the literal fallback preserves the re-parse
invariant and the key list. -/
theorem statsMatch_format_pending_adds (cf : String) (pa : List (String × Int)) :
    ∀ fs ls, StatsMatch fs ls →
      StatsMatch (format_pending_adds cf fs pa).2
        (ls ++ (format_pending_adds cf fs pa).1) ∧
      statsKeys (format_pending_adds cf fs pa).2 = statsKeys fs := by
  induction pa with
  | nil => intro fs ls h; simpa [format_pending_adds] using h
  | cons p rest ih =>
      intro fs ls h
      obtain ⟨content, line⟩ := p
      have h1 : StatsMatch (bumpAdd fs cf) (ls ++ [pendingAddLine cf content line]) :=
        statsMatch_bumpAdd h _ rfl rfl
      have h2 := ih (bumpAdd fs cf) (ls ++ [pendingAddLine cf content line]) h1
      constructor
      · simpa [format_pending_adds, List.append_assoc] using h2.1
      · rw [format_pending_adds]
        rw [h2.2, statsKeys_bumpAdd]

/-- The literal fallback rendering preserves the re-parse invariant and
the key list. -/
theorem statsMatch_format_pending_changes (pd pa : List (String × Int))
    (fs : FileStats) (cf : String) (ls : List OutLine) (h : StatsMatch fs ls) :
    StatsMatch (format_pending_changes pd pa fs cf).2
      (ls ++ (format_pending_changes pd pa fs cf).1) ∧
    statsKeys (format_pending_changes pd pa fs cf).2 = statsKeys fs := by
  have h1 := statsMatch_format_pending_dels cf pd fs ls h
  have h2 := statsMatch_format_pending_adds cf pa (format_pending_dels cf fs pd).2
    (ls ++ (format_pending_dels cf fs pd).1) h1.1
  constructor
  · simpa [format_pending_changes, List.append_assoc] using h2.1
  · show statsKeys (format_pending_adds cf (format_pending_dels cf fs pd).2 pa).2
      = statsKeys fs
    rw [h2.2, h1.2]

/-- The hunk-boundary buffer resolution preserves the re-parse invariant
and the key list. -/
theorem statsMatch_handle_pending (pd pa : List (String × Int)) (fs : FileStats)
    (cf : String) (ls : List OutLine) (h : StatsMatch fs ls) :
    StatsMatch (handle_pending_newline_changes pd pa fs cf).2
      (ls ++ (handle_pending_newline_changes pd pa fs cf).1) ∧
    statsKeys (handle_pending_newline_changes pd pa fs cf).2 = statsKeys fs := by
  have hfb := statsMatch_format_pending_changes pd pa fs cf ls h
  unfold handle_pending_newline_changes
  rcases pd with _ | ⟨⟨dc, dl⟩, _ | ⟨d2, pdrest⟩⟩ <;>
    rcases pa with _ | ⟨⟨a1c, a1l⟩, _ | ⟨⟨a2c, a2l⟩, _ | parest⟩⟩ <;>
    try exact hfb
  dsimp only
  by_cases heq : strTrim dc = strTrim a1c
  · rw [if_pos heq]
    refine ⟨?_, by simp [statsKeys_bumpAdd]⟩
    have h0 : StatsMatch fs (ls ++ [collapseCtxLine cf dc dl a1l]) := by
      refine statsMatch_append_noCount h _ ?_
      intro l hl
      simp only [List.mem_singleton] at hl
      subst hl
      exact ⟨by simp [collapseCtxLine], by simp [collapseCtxLine]⟩
    have h1 : StatsMatch (bumpAdd fs cf)
        ((ls ++ [collapseCtxLine cf dc dl a1l]) ++ [collapseAddLine cf a2c a2l]) :=
      statsMatch_bumpAdd h0 _ rfl rfl
    simpa [List.append_assoc] using h1
  · rw [if_neg heq]
    exact hfb

/-- The end-of-diff buffer resolution preserves the re-parse invariant and
the key list. -/
theorem statsMatch_handle_remaining (pd pa : List (String × Int)) (fs : FileStats)
    (cf : String) (ls : List OutLine) (h : StatsMatch fs ls) :
    StatsMatch (handle_remaining_newline_changes pd pa fs cf).2
      (ls ++ (handle_remaining_newline_changes pd pa fs cf).1) ∧
    statsKeys (handle_remaining_newline_changes pd pa fs cf).2 = statsKeys fs := by
  have hfb := statsMatch_format_pending_changes pd pa fs cf ls h
  unfold handle_remaining_newline_changes
  rcases pd with _ | ⟨⟨dc, dl⟩, _ | ⟨⟨d2c, d2l⟩, _ | pdrest⟩⟩ <;>
    rcases pa with _ | ⟨⟨a1c, a1l⟩, _ | ⟨⟨a2c, a2l⟩, _ | parest⟩⟩ <;>
    try exact hfb
  · -- one deletion, two additions
    dsimp only
    by_cases heq : strTrim dc = strTrim a1c
    · rw [if_pos heq]
      refine ⟨?_, by simp [statsKeys_bumpAdd]⟩
      have h0 : StatsMatch fs (ls ++ [collapseCtxLine cf dc dl a1l]) := by
        refine statsMatch_append_noCount h _ ?_
        intro l hl
        simp only [List.mem_singleton] at hl
        subst hl
        exact ⟨by simp [collapseCtxLine], by simp [collapseCtxLine]⟩
      have h1 : StatsMatch (bumpAdd fs cf)
          ((ls ++ [collapseCtxLine cf dc dl a1l]) ++ [collapseAddLine cf a2c a2l]) :=
        statsMatch_bumpAdd h0 _ rfl rfl
      simpa [List.append_assoc] using h1
    · rw [if_neg heq]
      exact hfb
  · -- two deletions, one addition
    dsimp only
    by_cases heq : strTrim dc = strTrim a1c
    · rw [if_pos heq]
      refine ⟨?_, by simp [statsKeys_bumpDel]⟩
      have h0 : StatsMatch fs (ls ++ [collapseCtxLine cf dc dl a1l]) := by
        refine statsMatch_append_noCount h _ ?_
        intro l hl
        simp only [List.mem_singleton] at hl
        subst hl
        exact ⟨by simp [collapseCtxLine], by simp [collapseCtxLine]⟩
      have h1 : StatsMatch (bumpDel fs cf)
          ((ls ++ [collapseCtxLine cf dc dl a1l]) ++ [collapseDelLine cf d2c d2l]) :=
        statsMatch_bumpDel h0 _ rfl rfl
      simpa [List.append_assoc] using h1
    · rw [if_neg heq]
      exact hfb

/-- Appending lines of non-counting kinds keeps the invariant; helper for
the per-arm lemmas. -/
theorem statsMatch_append_banner {fs : FileStats} {ls : List OutLine}
    (h : StatsMatch fs ls) (l : OutLine)
    (h1 : l.kind ≠ OutKind.addLine) (h2 : l.kind ≠ OutKind.delLine) :
    StatsMatch fs (ls ++ [l]) := by
  refine statsMatch_append_noCount h _ ?_
  intro x hx
  simp only [List.mem_singleton] at hx
  subst hx
  exact ⟨h1, h2⟩

/-- The file-header arm preserves the re-parse invariant and the keys. -/
theorem stepFileHeader_stats (st : FmtState) (ev : PrintEvent)
    (h : StatsMatch st.fileStats st.outs) :
    StatsMatch (stepFileHeader st ev).fileStats (stepFileHeader st ev).outs ∧
    statsKeys (stepFileHeader st ev).fileStats = statsKeys st.fileStats := by
  unfold stepFileHeader
  dsimp only
  split
  · split
    · split
      · refine ⟨?_, rfl⟩
        refine statsMatch_append_noCount ?_ _ ?_
        · exact statsMatch_append_banner h _ (by simp) (by simp)
        · intro x hx
          simp only [List.mem_cons, List.mem_singleton, List.not_mem_nil, or_false] at hx
          rcases hx with rfl | rfl
          · exact ⟨by simp, by simp⟩
          · exact ⟨by simp, by simp⟩
      · refine ⟨?_, rfl⟩
        refine statsMatch_append_noCount h _ ?_
        intro x hx
        simp only [List.mem_cons, List.mem_singleton, List.not_mem_nil, or_false] at hx
        rcases hx with rfl | rfl
        · exact ⟨by simp, by simp⟩
        · exact ⟨by simp, by simp⟩
    · split
      · exact ⟨statsMatch_append_banner h _ (by simp) (by simp), rfl⟩
      · exact ⟨h, rfl⟩
  · split
    · exact ⟨statsMatch_append_banner h _ (by simp) (by simp), rfl⟩
    · exact ⟨h, rfl⟩

/-- The hunk-boundary flush preserves the re-parse invariant and the keys. -/
theorem flushPending_stats (st : FmtState)
    (h : StatsMatch st.fileStats st.outs) :
    StatsMatch (flushPending st).fileStats (flushPending st).outs ∧
    statsKeys (flushPending st).fileStats = statsKeys st.fileStats := by
  unfold flushPending
  dsimp only
  split
  · have hh := statsMatch_handle_pending st.pendingDeletions st.pendingAdditions
      st.fileStats st.currentFile st.outs h
    exact ⟨hh.1, hh.2⟩
  · exact ⟨h, rfl⟩

/-- The manual hunk parse preserves the re-parse invariant and the keys. -/
theorem stepManualHunk_stats (st : FmtState) (content : String)
    (h : StatsMatch st.fileStats st.outs) :
    StatsMatch (stepManualHunk st content).fileStats (stepManualHunk st content).outs ∧
    statsKeys (stepManualHunk st content).fileStats = statsKeys st.fileStats := by
  unfold stepManualHunk
  dsimp only
  split
  · split <;> split <;>
      exact ⟨statsMatch_append_banner h _ (by simp) (by simp), rfl⟩
  · exact ⟨statsMatch_append_banner h _ (by simp) (by simp), rfl⟩

/-- The hunk-header arm preserves the re-parse invariant and the keys. -/
theorem stepHunkHeader_stats (st : FmtState) (ev : PrintEvent)
    (h : StatsMatch st.fileStats st.outs) :
    StatsMatch (stepHunkHeader st ev).fileStats (stepHunkHeader st ev).outs ∧
    statsKeys (stepHunkHeader st ev).fileStats = statsKeys st.fileStats := by
  have hf := flushPending_stats st h
  unfold stepHunkHeader
  dsimp only
  split
  · exact ⟨statsMatch_append_banner hf.1 _ (by simp) (by simp), hf.2⟩
  · split
    · have hm := stepManualHunk_stats (flushPending st) ev.content hf.1
      exact ⟨hm.1, hm.2.trans hf.2⟩
    · exact ⟨statsMatch_append_banner hf.1 _ (by simp) (by simp), hf.2⟩

/-- The added-line arm preserves the re-parse invariant and the keys. -/
theorem stepAddLine_stats (st : FmtState) (content : String)
    (h : StatsMatch st.fileStats st.outs) :
    StatsMatch (stepAddLine st content).fileStats (stepAddLine st content).outs ∧
    statsKeys (stepAddLine st content).fileStats = statsKeys st.fileStats := by
  unfold stepAddLine
  dsimp only
  split
  · exact ⟨statsMatch_bumpAdd h _ rfl rfl, statsKeys_bumpAdd _ _⟩
  · exact ⟨statsMatch_bumpAdd h _ rfl rfl, statsKeys_bumpAdd _ _⟩

/-- The deleted-line arm preserves the re-parse invariant and the keys. -/
theorem stepDelLine_stats (st : FmtState) (content : String)
    (h : StatsMatch st.fileStats st.outs) :
    StatsMatch (stepDelLine st content).fileStats (stepDelLine st content).outs ∧
    statsKeys (stepDelLine st content).fileStats = statsKeys st.fileStats := by
  unfold stepDelLine
  dsimp only
  split
  · exact ⟨statsMatch_bumpDel h _ rfl rfl, statsKeys_bumpDel _ _⟩
  · exact ⟨statsMatch_bumpDel h _ rfl rfl, statsKeys_bumpDel _ _⟩

/-- The context-line arm preserves the re-parse invariant and the keys. -/
theorem stepCtxLine_stats (st : FmtState) (content : String)
    (h : StatsMatch st.fileStats st.outs) :
    StatsMatch (stepCtxLine st content).fileStats (stepCtxLine st content).outs ∧
    statsKeys (stepCtxLine st content).fileStats = statsKeys st.fileStats := by
  unfold stepCtxLine
  split
  · exact ⟨statsMatch_append_banner h _ (by simp) (by simp), rfl⟩
  · exact ⟨statsMatch_append_banner h _ (by simp) (by simp), rfl⟩

/-- One callback step preserves the re-parse invariant and the key list of
the per-file counter map. -/
theorem stepEvent_stats (st : FmtState) (ev : PrintEvent)
    (h : StatsMatch st.fileStats st.outs) :
    StatsMatch (stepEvent st ev).fileStats (stepEvent st ev).outs ∧
    statsKeys (stepEvent st ev).fileStats = statsKeys st.fileStats := by
  unfold stepEvent
  split
  · exact ⟨h, rfl⟩
  · split
    · split
      · exact ⟨h, rfl⟩
      · exact ⟨h, rfl⟩
    · split
      · exact stepFileHeader_stats st ev h
      · split
        · exact stepHunkHeader_stats st ev h
        · split
          · exact stepAddLine_stats st ev.content h
          · split
            · exact stepDelLine_stats st ev.content h
            · split
              · exact stepCtxLine_stats st ev.content h
              · exact ⟨h, rfl⟩

/-- C7 counterexample: a buffer of exactly two deletions and one addition
whose first deletion trims equal to the addition is NOT collapsed at a
hunk boundary — handle_pending_newline_changes falls back to the literal
delete+delete+add rendering there; only the end-of-diff handler collapses
it to context+deletion. -/
theorem newline_buffer_boundary_counterexample :
    strTrim "old line\n" = strTrim "old line" ∧
    handle_pending_newline_changes [("old line\n", 3), ("tail line", 4)]
        [("old line", 3)] [("f.txt", 0, 0)] "f.txt"
      = format_pending_changes [("old line\n", 3), ("tail line", 4)]
          [("old line", 3)] [("f.txt", 0, 0)] "f.txt" ∧
    (handle_pending_newline_changes [("old line\n", 3), ("tail line", 4)]
        [("old line", 3)] [("f.txt", 0, 0)] "f.txt").1.map OutLine.kind
      = [.delLine, .delLine, .addLine] ∧
    (handle_remaining_newline_changes [("old line\n", 3), ("tail line", 4)]
        [("old line", 3)] [("f.txt", 0, 0)] "f.txt").1.map OutLine.kind
      = [.ctxLine, .delLine] := by
  decide

/-- C7 amended: the 2-deletions/1-addition buffer with matching trimmed
texts is collapsed to one context line plus one deleted line only by the
end-of-diff resolution (handle_remaining_newline_changes); the
hunk-boundary resolution (handle_pending_newline_changes) renders it as
the literal delete+delete+add fallback. -/
theorem newline_buffer_two_del_one_add (d1c d2c ac cf : String)
    (d1l d2l al : Int) (fs : FileStats)
    (heq : strTrim d1c = strTrim ac) :
    handle_remaining_newline_changes [(d1c, d1l), (d2c, d2l)] [(ac, al)] fs cf
      = ([collapseCtxLine cf d1c d1l al, collapseDelLine cf d2c d2l],
         bumpDel fs cf) ∧
    handle_pending_newline_changes [(d1c, d1l), (d2c, d2l)] [(ac, al)] fs cf
      = format_pending_changes [(d1c, d1l), (d2c, d2l)] [(ac, al)] fs cf ∧
    (format_pending_changes [(d1c, d1l), (d2c, d2l)] [(ac, al)] fs cf).1
      = [pendingDelLine cf d1c d1l, pendingDelLine cf d2c d2l,
         pendingAddLine cf ac al] := by
  refine ⟨?_, rfl, rfl⟩
  unfold handle_remaining_newline_changes
  simp [heq]

/-- Witness for the amended C7 at a concrete buffer. -/
theorem newline_buffer_two_del_one_add_witness :
    strTrim "last line\n" = strTrim "last line" ∧
    handle_remaining_newline_changes [("last line\n", 7), ("gone", 8)]
        [("last line", 7)] [("a.txt", 0, 0)] "a.txt"
      = ([collapseCtxLine "a.txt" "last line\n" 7 7,
          collapseDelLine "a.txt" "gone" 8],
         bumpDel [("a.txt", 0, 0)] "a.txt") :=
  ⟨by decide,
   (newline_buffer_two_del_one_add "last line\n" "gone" "last line" "a.txt"
      7 8 7 [("a.txt", 0, 0)] (by decide)).1⟩


/-- The whole fold preserves the re-parse invariant and the keys. -/
theorem processEvents_stats (evs : List PrintEvent) :
    ∀ st : FmtState, StatsMatch st.fileStats st.outs →
      StatsMatch (processEvents st evs).fileStats (processEvents st evs).outs ∧
      statsKeys (processEvents st evs).fileStats = statsKeys st.fileStats := by
  induction evs with
  | nil => intro st h; exact ⟨h, rfl⟩
  | cons e rest ih =>
      intro st h
      have h1 := stepEvent_stats st e h
      have h2 := ih (stepEvent st e) h1.1
      exact ⟨h2.1, h2.2.trans h1.2⟩

/-- The pre-registered counters are all zero. -/
theorem initFileStats_zero (ds : List (Option String)) :
    ∀ f a b, (f, a, b) ∈ initFileStats ds → a = 0 ∧ b = 0 := by
  induction ds with
  | nil => intro f a b hmem; cases hmem
  | cons d rest ih =>
      intro f a b hmem
      cases d with
      | none => exact ih f a b hmem
      | some p =>
          simp only [initFileStats] at hmem
          unfold statsInsert at hmem
          split at hmem
          · exact ih f a b hmem
          · simp only [List.mem_append, List.mem_singleton] at hmem
            rcases hmem with hmem | hmem
            · exact ih f a b hmem
            · simp only [Prod.mk.injEq] at hmem
              obtain ⟨rfl, rfl, rfl⟩ := hmem
              exact ⟨rfl, rfl⟩

/-- The re-parse invariant holds at the start of the fold. -/
theorem statsMatch_init (ds : List (Option String)) :
    StatsMatch (initFileStats ds) [] := by
  intro f a b hmem
  have hz := initFileStats_zero ds f a b hmem
  simp [countKind, hz.1, hz.2]

/-- The end-of-stream flush preserves the re-parse invariant and the keys. -/
theorem finalFlush_stats (st : FmtState) (h : StatsMatch st.fileStats st.outs) :
    StatsMatch (finalFlush st).fileStats (finalFlush st).outs ∧
    statsKeys (finalFlush st).fileStats = statsKeys st.fileStats := by
  unfold finalFlush
  dsimp only
  split
  · have hh := statsMatch_handle_remaining st.pendingDeletions st.pendingAdditions
      st.fileStats st.currentFile st.outs h
    exact ⟨hh.1, hh.2⟩
  · exact ⟨h, rfl⟩

/-- C8: the trailing aggregate summary of format_diff_output is the single
source of truth: the returned text appends generate_diff_summary of
exactly the final per-file counter map, every tracked per-file counter
pair equals the number of rendered addition/deletion lines of that file
section (so re-parsing the rendered body reproduces the summary), the
summary totals are the sums of those per-file counters, and the tracked
files are exactly the paths pre-registered from the deltas. -/
theorem diff_summary_single_source (d : DiffInput) :
    ((format_diff_output d).text
      = if renderOuts (format_diff_output d).lines = "" then noDiffMsg
        else renderOuts (format_diff_output d).lines
          ++ generate_diff_summary (format_diff_output d).stats) ∧
    (∀ f a b, (f, a, b) ∈ (format_diff_output d).stats →
        a = (countKind (format_diff_output d).lines .addLine f : Int) ∧
        b = (countKind (format_diff_output d).lines .delLine f : Int)) ∧
    statsKeys (format_diff_output d).stats = statsKeys (initFileStats d.deltas) ∧
    totalAdditions (format_diff_output d).stats
      = ((format_diff_output d).stats.map
          (fun e => (countKind (format_diff_output d).lines .addLine e.1 : Int))).sum ∧
    totalDeletions (format_diff_output d).stats
      = ((format_diff_output d).stats.map
          (fun e => (countKind (format_diff_output d).lines .delLine e.1 : Int))).sum := by
  have hrun := processEvents_stats d.events
    { currentFile := ""
      fileStats := initFileStats d.deltas
      oldLineNum := 1
      newLineNum := 1
      hunkInitialized := false
      pendingDeletions := []
      pendingAdditions := []
      inNewlineContext := false
      outs := [] }
    (statsMatch_init d.deltas)
  have hfin := finalFlush_stats _ hrun.1
  refine ⟨rfl, hfin.1, hfin.2.trans hrun.2, ?_, ?_⟩
  · unfold totalAdditions
    congr 1
    refine List.map_congr_left ?_
    rintro ⟨f, a, b⟩ hm
    exact (hfin.1 f a b hm).1
  · unfold totalDeletions
    congr 1
    refine List.map_congr_left ?_
    rintro ⟨f, a, b⟩ hm
    exact (hfin.1 f a b hm).2

/-- Witness for C8 on a concrete one-file diff. -/
theorem diff_summary_single_source_witness :
    (format_diff_output sampleDiff).stats = [("m.txt", 1, 1)] ∧
    (1 : Int) = (countKind (format_diff_output sampleDiff).lines .addLine "m.txt" : Int) :=
  ⟨by decide,
   ((diff_summary_single_source sampleDiff).2.1 "m.txt" 1 1 (by decide)).1⟩


/-- A successful set_head changes only the HEAD field. -/
theorem setHead_fields {s : RepoState} {r : String} {s₂ : RepoState}
    (h : setHead s r = .ok s₂) :
    s₂.branches = s.branches ∧ s₂.commits = s.commits ∧
    s₂.indexTree = s.indexTree ∧ s₂.workdirTree = s.workdirTree ∧
    s₂.statusDirty = s.statusDirty ∧
    s₂.setHeadFailures = s.setHeadFailures := by
  unfold setHead at h
  split at h
  · cases h
  · split at h
    · injection h with h2
      subst h2
      exact ⟨rfl, rfl, rfl, rfl, rfl, rfl⟩
    · injection h with h2
      subst h2
      exact ⟨rfl, rfl, rfl, rfl, rfl, rfl⟩

/-- restore_original_branch changes only the HEAD field. -/
theorem restore_original_fields (s : RepoState) (o : String) :
    (restore_original_branch s o).2.branches = s.branches ∧
    (restore_original_branch s o).2.commits = s.commits ∧
    (restore_original_branch s o).2.indexTree = s.indexTree ∧
    (restore_original_branch s o).2.workdirTree = s.workdirTree := by
  unfold restore_original_branch
  split
  · rcases hsh : setHead s (branchRef o) with e | s₂
    · simp [hsh]
    · have hf := setHead_fields hsh
      simp [hsh, hf.1, hf.2.1, hf.2.2.1, hf.2.2.2.1]
  · exact ⟨rfl, rfl, rfl, rfl⟩

/-- A successful ensure_ccg_branch changes only the HEAD field and
returns the previously current branch. -/
theorem ensure_ok_fields {s : RepoState} {b : String} {s₁ : RepoState}
    (h : ensure_ccg_branch s = (.ok b, s₁)) :
    s₁.branches = s.branches ∧ s₁.commits = s.commits ∧
    s₁.indexTree = s.indexTree ∧ s₁.workdirTree = s.workdirTree ∧
    s₁.statusDirty = s.statusDirty ∧
    s₁.setHeadFailures = s.setHeadFailures ∧
    b = get_current_branch_name s := by
  unfold ensure_ccg_branch at h
  dsimp only at h
  split at h
  · split at h
    · simp at h
    · split at h
      · simp at h
      · rename_i s₂ hsh
        simp only [Prod.mk.injEq, Except.ok.injEq] at h
        obtain ⟨rfl, rfl⟩ := h
        have hf := setHead_fields hsh
        exact ⟨hf.1, hf.2.1, hf.2.2.1, hf.2.2.2.1, hf.2.2.2.2.1, hf.2.2.2.2.2, rfl⟩
  · simp only [Prod.mk.injEq, Except.ok.injEq] at h
    obtain ⟨rfl, rfl⟩ := h
    exact ⟨rfl, rfl, rfl, rfl, rfl, rfl, rfl⟩

/-- C3: when the working tree has pending uncommitted modifications
(untracked files included) and the reserved branch is reachable, restore
fails with UncommittedChanges and performs no mutation: branch tips,
commit objects, index and working tree are all unchanged. -/
theorem restore_dirty_no_mutation (s : RepoState) (q : String) (b : String)
    (hens : (ensure_ccg_branch s).1 = .ok b)
    (hdirty : s.statusDirty = true) :
    (Service_restore q s).1 = .error .uncommittedChanges ∧
    sameBackend s (Service_restore q s).2.1 := by
  rcases he : ensure_ccg_branch s with ⟨r₁, s₁⟩
  rw [he] at hens
  simp only at hens
  subst hens
  have hf := ensure_ok_fields he
  have hsd : has_uncommitted_changes s₁ = true := by
    unfold has_uncommitted_changes
    rw [hf.2.2.2.2.1, hdirty]
  unfold Service_restore
  rw [he]
  dsimp only
  rw [if_pos hsd]
  split
  · have hro := restore_original_fields s₁ (get_current_branch_name s)
    refine ⟨rfl, ?_, ?_, ?_, ?_⟩
    · rw [hro.1, hf.1]
    · rw [hro.2.1, hf.2.1]
    · rw [hro.2.2.1, hf.2.2.1]
    · rw [hro.2.2.2, hf.2.2.2.1]
  · exact ⟨rfl, hf.1, hf.2.1, hf.2.2.1, hf.2.2.2.1⟩

/-- Witness for C3: a dirty two-checkpoint repository. -/
theorem restore_dirty_no_mutation_witness :
    (ensure_ccg_branch dirtyRepo).1 = .ok "main" ∧
    dirtyRepo.statusDirty = true ∧
    (Service_restore hashAb1 dirtyRepo).1 = .error .uncommittedChanges :=
  ⟨by decide, by decide,
   (restore_dirty_no_mutation dirtyRepo hashAb1 "main" (by decide) (by decide)).1⟩


/-- C1: for the wrapped lifecycle operations — create, list, show, diff
are exactly wrapper applications — a successful body outcome survives a
failed leave(): the wrapper returns the body value unchanged (only a
warning is printed), and in particular create still returns the new
checkpoint hash. -/
theorem leave_failure_keeps_success {α : Type} (s : RepoState)
    (op : RepoState → Except CheckpointError α × RepoState)
    (original : String) (s₁ : RepoState) (t : List Ev) (v : α)
    (e : CheckpointError)
    (henter : enterPhase s = (.ok original, s₁, t))
    (hop : (op s₁).1 = .ok v)
    ( _hleave : (restore_original_branch (op s₁).2 original).1 = .error e) :
    (execute_on_ccg_branch s op).1 = .ok v ∧
    (∀ ti, Service_create ti s = execute_on_ccg_branch s (createBody ti)) ∧
    (∀ n, Service_list n s = execute_on_ccg_branch s (listBody n)) ∧
    (∀ r h sd, Service_show r h sd s = execute_on_ccg_branch s (showBody r h sd)) ∧
    (∀ r ha hb, Service_diff r ha hb s = execute_on_ccg_branch s (diffBody r ha hb)) := by
  refine ⟨?_, fun ti => rfl, fun n => rfl, fun r h sd => rfl, fun r ha hb => rfl⟩
  unfold execute_on_ccg_branch
  rw [henter]
  dsimp only
  exact hop

/-- Witness for C1: in `sampleRepo` the main-branch ref is poisoned, so
create commits successfully on the reserved branch and leave() fails;
the wrapper still returns the new checkpoint hash. -/
theorem leave_failure_keeps_success_witness :
    (createBody none ((enterPhase sampleRepo).2.1)).1 = .ok "@1" ∧
    (restore_original_branch ((createBody none) ((enterPhase sampleRepo).2.1)).2
        "main").1
      = .error (.gitOperationFailed ⟨.generic, "set_head failed"⟩) ∧
    (execute_on_ccg_branch sampleRepo (createBody none)).1 = .ok "@1" ∧
    Service_create none sampleRepo = execute_on_ccg_branch sampleRepo (createBody none) :=
  ⟨by decide, by decide,
   (leave_failure_keeps_success sampleRepo (createBody none) "main"
      (enterPhase sampleRepo).2.1 (enterPhase sampleRepo).2.2 "@1"
      (.gitOperationFailed ⟨.generic, "set_head failed"⟩)
      (by decide) (by decide) (by decide)).1,
   ((leave_failure_keeps_success sampleRepo (createBody none) "main"
      (enterPhase sampleRepo).2.1 (enterPhase sampleRepo).2.2 "@1"
      (.gitOperationFailed ⟨.generic, "set_head failed"⟩)
      (by decide) (by decide) (by decide)).2.1) none⟩

/-- The enter phase emits only enter events, at least one. -/
theorem enterPhase_trace (s : RepoState) :
    (enterPhase s).2.2 = [Ev.enter] ∨ (enterPhase s).2.2 = [Ev.enter, Ev.enter] := by
  unfold enterPhase
  split
  · exact Or.inl rfl
  · split
    · exact Or.inl rfl
    · exact Or.inr rfl
  · split
    · split
      · exact Or.inl rfl
      · exact Or.inr rfl
    · exact Or.inl rfl
  · exact Or.inl rfl

/-- C2 counterexample: a concrete clean repository on which restore
succeeds while emitting no leave event at all — the original branch is
not restored on the success path. -/
theorem restore_no_leave_counterexample :
    get_current_branch_name restoreRepo = "main" ∧
    (Service_restore hashAb1 restoreRepo).1 = .ok () ∧
    (Service_restore hashAb1 restoreRepo).2.2 = [Ev.enter] ∧
    (Service_restore hashAb1 restoreRepo).2.2.count Ev.leave = 0 ∧
    (Service_restore hashAb1 restoreRepo).2.1.head = HeadState.onBranch "ccg" := by
  refine ⟨rfl, by decide, by decide, by decide, by decide⟩

/-- C2 amended: create, list, show and diff run under
execute_on_ccg_branch, which calls enter() before the body and leave()
exactly once afterwards on every exit path following a successful enter,
and runs no body when enter fails; restore calls enter() first but calls
leave() only on its uncommitted-changes abort path (and only when the
original branch differs from the reserved one), deliberately remaining on
the checkpoint branch on success. -/
theorem enter_leave_protocol {α : Type} (s : RepoState)
    (op : RepoState → Except CheckpointError α × RepoState) :
    (∀ original s₁ t, enterPhase s = (.ok original, s₁, t) →
        (execute_on_ccg_branch s op).2.2 = t ++ [Ev.bodyRun, Ev.leave] ∧
        t.count Ev.bodyRun = 0 ∧ t.count Ev.leave = 0 ∧ 1 ≤ t.count Ev.enter) ∧
    (∀ e s₁ t, enterPhase s = (.error e, s₁, t) →
        (execute_on_ccg_branch s op).2.2.count Ev.bodyRun = 0 ∧
        (execute_on_ccg_branch s op).2.2.count Ev.leave = 0) ∧
    (∀ ti, Service_create ti s = execute_on_ccg_branch s (createBody ti)) ∧
    (∀ n, Service_list n s = execute_on_ccg_branch s (listBody n)) ∧
    (∀ r h sd, Service_show r h sd s = execute_on_ccg_branch s (showBody r h sd)) ∧
    (∀ r ha hb, Service_diff r ha hb s = execute_on_ccg_branch s (diffBody r ha hb)) ∧
    (∀ q b s₁, ensure_ccg_branch s = (.ok b, s₁) →
        has_uncommitted_changes s₁ = false →
        (Service_restore q s).2.2.count Ev.leave = 0) ∧
    (∀ q b s₁, ensure_ccg_branch s = (.ok b, s₁) →
        has_uncommitted_changes s₁ = true →
        get_current_branch_name s ≠ CCG_BRANCH_NAME →
        (Service_restore q s).1 = .error .uncommittedChanges ∧
        (Service_restore q s).2.2 = [Ev.enter, Ev.leave]) := by
  refine ⟨?_, ?_, fun ti => rfl, fun n => rfl, fun r h sd => rfl,
    fun r ha hb => rfl, ?_, ?_⟩
  · intro original s₁ t henter
    have htr := enterPhase_trace s
    rw [henter] at htr
    constructor
    · unfold execute_on_ccg_branch
      rw [henter]
    · rcases htr with htr | htr <;> simp only at htr <;> subst htr <;> exact ⟨rfl, rfl, by decide⟩
  · intro e s₁ t henter
    have htr := enterPhase_trace s
    rw [henter] at htr
    unfold execute_on_ccg_branch
    rw [henter]
    dsimp only
    rcases htr with htr | htr <;> simp only at htr <;> subst htr <;> exact ⟨rfl, rfl⟩
  · intro q b s₁ hens hclean
    unfold Service_restore
    rw [hens]
    dsimp only
    rw [if_neg (by rw [hclean]; exact Bool.false_ne_true)]
    split
    · rfl
    · split
      · rfl
      · split
        · rfl
        · split
          · rfl
          · rfl
  · intro q b s₁ hens hdirty hne
    unfold Service_restore
    rw [hens]
    dsimp only
    rw [if_pos hdirty, if_pos hne]
    exact ⟨rfl, rfl⟩

/-- Witness for the amended C2: the wrapper protocol at a concrete state
and operation. -/
theorem enter_leave_protocol_witness :
    (execute_on_ccg_branch cleanRepo (createBody none)).2.2
      = [Ev.enter] ++ [Ev.bodyRun, Ev.leave] :=
  ((enter_leave_protocol cleanRepo (createBody none)).1 "main"
    (enterPhase cleanRepo).2.1 [Ev.enter] (by decide)).1


/-- Stripping the `refs/heads/` prefix recovers the branch name. -/
theorem refBranchName_branchRef (b : String) : refBranchName (branchRef b) = b := by
  unfold refBranchName branchRef
  have h1 : strStartsWith ("refs/heads/" ++ b) "refs/heads/" = true := by
    unfold strStartsWith
    exact List.isPrefixOf_iff_prefix.2 ⟨b.toList, rfl⟩
  rw [if_pos h1]
  have h2 : ("refs/heads/" ++ b).toList = "refs/heads/".toList ++ b.toList := rfl
  rw [h2]
  have h3 : ("refs/heads/".toList).length = 11 := by decide
  rw [← h3, List.drop_left]
  rfl

/-- The tip update never changes the name component of an entry, so find?
commutes with it. -/
theorem find?_fst_map_update (l : List (String × String)) (b n x : String) :
    (l.map (fun e => if e.1 = b then (e.1, n) else e)).find?
        (fun e => e.1 = x)
      = (l.find? (fun e => e.1 = x)).map
          (fun e => if e.1 = b then (e.1, n) else e) := by
  induction l with
  | nil => rfl
  | cons e rest ih =>
      rw [List.map_cons, List.find?_cons, List.find?_cons]
      have hfst : (if e.1 = b then (e.1, n) else e).1 = e.1 := by split <;> rfl
      rw [hfst]
      cases hd : (decide (e.1 = x)) with
      | true => rfl
      | false => simpa using ih

/-- Advancing a branch tip updates its own lookup. -/
theorem lookupBranch_update_self (s : RepoState) (b n : String) :
    lookupBranch (updateBranchTip s b n) b = (lookupBranch s b).map (fun _ => n) := by
  unfold lookupBranch updateBranchTip
  dsimp only
  rw [find?_fst_map_update]
  rcases hfind : s.branches.find? (fun e => decide (e.1 = b)) with _ | e
  · rw [hfind]; rfl
  · have he : e.1 = b := by simpa using List.find?_some hfind
    rw [hfind]
    simp [he]

/-- Advancing a branch tip leaves other lookups unchanged. -/
theorem lookupBranch_update_other (s : RepoState) (b n x : String) (hx : x ≠ b) :
    lookupBranch (updateBranchTip s b n) x = lookupBranch s x := by
  unfold lookupBranch updateBranchTip
  dsimp only
  rw [find?_fst_map_update]
  rcases hfind : s.branches.find? (fun e => decide (e.1 = x)) with _ | e
  · rw [hfind]; rfl
  · have he : e.1 = x := by simpa using List.find?_some hfind
    have hne : ¬ (e.1 = b) := by rw [he]; exact hx
    rw [hfind]
    simp [hne]

/-- find? skips a prefix in which nothing matches. -/
theorem find?_append_none {α : Type} (l₁ l₂ : List α) (p : α → Bool)
    (h : l₁.find? p = none) :
    (l₁ ++ l₂).find? p = l₂.find? p := by
  rw [List.find?_append, h]
  rfl

/-- Looking up a freshly appended commit finds it. -/
theorem lookupCommit_append_self (s : RepoState) (c : CommitRec)
    (hfresh : lookupCommit s c.hash = none) :
    lookupCommit { s with commits := s.commits ++ [c] } c.hash = some c := by
  unfold lookupCommit at *
  dsimp only
  rw [find?_append_none _ _ _ hfresh]
  simp [List.find?_cons]

/-- ensure is the identity when already on the reserved branch. -/
theorem ensure_on_ccg (s : RepoState) (hhead : s.head = .onBranch CCG_BRANCH_NAME) :
    ensure_ccg_branch s = (.ok CCG_BRANCH_NAME, s) := by
  unfold ensure_ccg_branch get_current_branch_name
  rw [hhead]
  dsimp only
  rw [if_neg (by simp)]

/-- ensure from another branch switches HEAD to the reserved branch and
returns the original branch name. -/
theorem ensure_from_other_branch (s : RepoState) (b : String)
    (hhead : s.head = .onBranch b) (hb : b ≠ CCG_BRANCH_NAME)
    (hccg : (lookupBranch s CCG_BRANCH_NAME).isSome = true)
    (hf : s.setHeadFailures.contains (branchRef CCG_BRANCH_NAME) = false) :
    ensure_ccg_branch s = (.ok b, { s with head := .onBranch CCG_BRANCH_NAME }) := by
  unfold ensure_ccg_branch get_current_branch_name
  rw [hhead]
  dsimp only
  rw [if_pos hb]
  unfold findBranch
  rcases hlb : lookupBranch s CCG_BRANCH_NAME with _ | tip
  · rw [hlb] at hccg; simp at hccg
  · dsimp only
    unfold setHead
    rw [if_neg (by rw [hf]; exact Bool.false_ne_true)]
    rw [refBranchName_branchRef]
    rw [if_pos hccg]

/-- Restoring to the reserved branch itself is a no-op. -/
theorem restore_to_ccg (s : RepoState) :
    restore_original_branch s CCG_BRANCH_NAME = (.ok (), s) := by
  unfold restore_original_branch
  simp

/-- Restoring to a healthy existing branch reattaches HEAD to it. -/
theorem restore_to_branch (s : RepoState) (b : String) (hb : b ≠ CCG_BRANCH_NAME)
    (hf : s.setHeadFailures.contains (branchRef b) = false)
    (hex : (lookupBranch s b).isSome = true) :
    restore_original_branch s b = (.ok (), { s with head := .onBranch b }) := by
  unfold restore_original_branch
  rw [if_pos hb]
  unfold setHead
  rw [if_neg (by rw [hf]; exact Bool.false_ne_true)]
  rw [refBranchName_branchRef]
  rw [if_pos hex]

/-- create_commit_internal refuses when the head tree equals the working
tree. -/
theorem create_commit_internal_no_changes (s : RepoState) (msg : String)
    (b tip : String) (c : CommitRec)
    (hhead : s.head = .onBranch b) (htip : lookupBranch s b = some tip)
    (hc : lookupCommit s tip = some c) (heq : c.tree = s.workdirTree) :
    create_commit_internal s msg = (.error .noChangesToCommit, s) := by
  have hchg : has_changes_to_commit s = .ok false := by
    unfold has_changes_to_commit get_parent_commit
    rw [hhead]
    dsimp only
    rw [htip]
    dsimp only [Option.bind]
    rw [hc]
    simp [heq]
  unfold create_commit_internal
  rw [hchg]

/-- create_commit_internal on the reserved branch with a differing working
tree: stages the working tree, appends the new checkpoint and advances the
reserved branch tip to its hash. -/
theorem create_commit_internal_success (s : RepoState) (msg tip : String)
    (c : CommitRec)
    (hhead : s.head = .onBranch CCG_BRANCH_NAME)
    (htip : lookupBranch s CCG_BRANCH_NAME = some tip)
    (hc : lookupCommit s tip = some c)
    (hne : c.tree ≠ s.workdirTree) :
    create_commit_internal s msg
      = (.ok (mkHash s.commits.length),
         updateBranchTip
           { s with indexTree := s.workdirTree,
                    commits := s.commits ++ [newCheckpoint s msg c.hash] }
           CCG_BRANCH_NAME (mkHash s.commits.length)) := by
  have hchg : has_changes_to_commit s = .ok true := by
    unfold has_changes_to_commit get_parent_commit
    rw [hhead]
    dsimp only
    rw [htip]
    dsimp only [Option.bind]
    rw [hc]
    simp [hne]
  have hgen : ∀ t : RepoState, t.head = .onBranch CCG_BRANCH_NAME →
      lookupBranch t CCG_BRANCH_NAME = some tip →
      lookupCommit t tip = some c →
      get_parent_commit t = .ok (some c) := by
    intro t h1 h2 h3
    unfold get_parent_commit
    rw [h1]
    dsimp only
    rw [h2]
    dsimp only [Option.bind]
    rw [h3]
  have hpar : get_parent_commit { s with indexTree := s.workdirTree } = .ok (some c) :=
    hgen _ hhead htip hc
  unfold create_commit_internal
  rw [hchg]
  dsimp only
  rw [hpar]
  unfold commitToHead
  dsimp only
  rw [hhead]
  dsimp only
  rfl

/-- Computation rule for the service wrapper, given the results of its
three stages (enter, body, leave). -/
theorem execute_wrapper_eq {α : Type} (s : RepoState)
    (op : RepoState → Except CheckpointError α × RepoState)
    (orig : String) (s₁ : RepoState) (r : Except CheckpointError α)
    (s₂ s₃ : RepoState)
    (he : enterPhase s = (.ok orig, s₁, [.enter]))
    (hb : op s₁ = (r, s₂))
    (hl : restore_original_branch s₂ orig = (.ok (), s₃)) :
    execute_on_ccg_branch s op = (r, s₃, [.enter, .bodyRun, .leave]) := by
  unfold execute_on_ccg_branch
  rw [he]
  dsimp only
  rw [hb]
  dsimp only
  rw [hl]
  rfl

/-- enterPhase is a bare enter event when already on the reserved
branch. -/
theorem enterPhase_on_ccg (t : RepoState)
    (hh : t.head = .onBranch CCG_BRANCH_NAME) :
    enterPhase t = (.ok CCG_BRANCH_NAME, t, [.enter]) := by
  unfold enterPhase
  rw [ensure_on_ccg t hh]

/-- enterPhase from another healthy branch switches HEAD to the reserved
branch and remembers the original name. -/
theorem enterPhase_from_other (t : RepoState) (b : String)
    (hh : t.head = .onBranch b) (hb : b ≠ CCG_BRANCH_NAME)
    (hccg : (lookupBranch t CCG_BRANCH_NAME).isSome = true)
    (hf : t.setHeadFailures.contains (branchRef CCG_BRANCH_NAME) = false) :
    enterPhase t
      = (.ok b, { t with head := .onBranch CCG_BRANCH_NAME }, [.enter]) := by
  unfold enterPhase
  rw [ensure_from_other_branch t b hh hb hccg hf]

/-- create_checkpoint on the reserved branch with pending changes: its
inner ensure and restore are no-ops and the commit succeeds. -/
theorem gitops_create_success_on_ccg (t : RepoState) (msg tip : String)
    (c : CommitRec)
    (hh : t.head = .onBranch CCG_BRANCH_NAME)
    (ht : lookupBranch t CCG_BRANCH_NAME = some tip)
    (hc : lookupCommit t tip = some c)
    (hn : c.tree ≠ t.workdirTree) :
    GitOps_create_checkpoint t msg
      = (.ok (mkHash t.commits.length), afterFirstCreate t msg c.hash) := by
  unfold GitOps_create_checkpoint
  rw [ensure_on_ccg t hh]
  dsimp only
  rw [create_commit_internal_success t msg tip c hh ht hc hn]
  dsimp only
  rw [restore_to_ccg]
  rfl

/-- create_checkpoint on the reserved branch with no pending changes
fails with NoChangesToCommit and leaves the state unchanged. -/
theorem gitops_create_nochanges_on_ccg (t : RepoState) (msg tip : String)
    (c : CommitRec)
    (hh : t.head = .onBranch CCG_BRANCH_NAME)
    (ht : lookupBranch t CCG_BRANCH_NAME = some tip)
    (hc : lookupCommit t tip = some c)
    (he : c.tree = t.workdirTree) :
    GitOps_create_checkpoint t msg = (.error .noChangesToCommit, t) := by
  unfold GitOps_create_checkpoint
  rw [ensure_on_ccg t hh]
  dsimp only
  rw [create_commit_internal_no_changes t msg CCG_BRANCH_NAME tip c hh ht hc he]
  dsimp only
  rw [restore_to_ccg]

/-- The create body on the reserved branch with pending changes returns
the new checkpoint hash. -/
theorem createBody_success_on_ccg (t : RepoState) (ti : Option String)
    (tip : String) (c : CommitRec)
    (hh : t.head = .onBranch CCG_BRANCH_NAME)
    (ht : lookupBranch t CCG_BRANCH_NAME = some tip)
    (hc : lookupCommit t tip = some c)
    (hn : c.tree ≠ t.workdirTree) :
    createBody ti t
      = (.ok (mkHash t.commits.length),
         afterFirstCreate t
           (ti.getD "Checkpoint created without a specific message.") c.hash) := by
  unfold createBody
  dsimp only
  rw [gitops_create_success_on_ccg t
      (ti.getD "Checkpoint created without a specific message.") tip c hh ht hc hn]

/-- The create body on the reserved branch with no pending changes
recovers NoChangesToCommit as the informational empty-hash success. -/
theorem createBody_nochanges_on_ccg (t : RepoState) (ti : Option String)
    (tip : String) (c : CommitRec)
    (hh : t.head = .onBranch CCG_BRANCH_NAME)
    (ht : lookupBranch t CCG_BRANCH_NAME = some tip)
    (hc : lookupCommit t tip = some c)
    (he : c.tree = t.workdirTree) :
    createBody ti t = (.ok "", t) := by
  unfold createBody
  dsimp only
  rw [gitops_create_nochanges_on_ccg t
      (ti.getD "Checkpoint created without a specific message.") tip c hh ht hc he]

/-- The reserved-branch lookup after a successful checkpoint commit
yields the new checkpoint hash. -/
theorem lookupBranch_afterFirstCreate_self (t : RepoState) (msg ph tip : String)
    (ht : lookupBranch t CCG_BRANCH_NAME = some tip) :
    lookupBranch (afterFirstCreate t msg ph) CCG_BRANCH_NAME
      = some (mkHash t.commits.length) := by
  unfold afterFirstCreate
  rw [lookupBranch_update_self]
  rw [show lookupBranch
      { t with indexTree := t.workdirTree,
               commits := t.commits ++ [newCheckpoint t msg ph] }
      CCG_BRANCH_NAME = some tip from ht]
  rfl

/-- Other branch tips are untouched by a checkpoint commit. -/
theorem lookupBranch_afterFirstCreate_other (t : RepoState) (msg ph x : String)
    (hx : x ≠ CCG_BRANCH_NAME) :
    lookupBranch (afterFirstCreate t msg ph) x = lookupBranch t x := by
  unfold afterFirstCreate
  rw [lookupBranch_update_other _ _ _ _ hx]
  rfl

/-- Looking up the fresh checkpoint hash after the commit finds the new
checkpoint record. -/
theorem lookupCommit_afterFirstCreate_new (t : RepoState) (msg ph : String)
    (hfresh : lookupCommit t (mkHash t.commits.length) = none) :
    lookupCommit (afterFirstCreate t msg ph) (mkHash t.commits.length)
      = some (newCheckpoint t msg ph) :=
  lookupCommit_append_self
    { t with indexTree := t.workdirTree } (newCheckpoint t msg ph) hfresh

/-- Full service-level create on the reserved branch with pending
changes. -/
theorem service_create_on_ccg (ti : Option String) (t : RepoState)
    (tip : String) (c : CommitRec)
    (hh : t.head = .onBranch CCG_BRANCH_NAME)
    (ht : lookupBranch t CCG_BRANCH_NAME = some tip)
    (hc : lookupCommit t tip = some c)
    (hn : c.tree ≠ t.workdirTree) :
    Service_create ti t
      = (.ok (mkHash t.commits.length),
         afterFirstCreate t
           (ti.getD "Checkpoint created without a specific message.") c.hash,
         [.enter, .bodyRun, .leave]) :=
  execute_wrapper_eq t (createBody ti) CCG_BRANCH_NAME t _ _ _
    (enterPhase_on_ccg t hh)
    (createBody_success_on_ccg t ti tip c hh ht hc hn)
    (restore_to_ccg _)

/-- Full service-level create on the reserved branch with no pending
changes: informational empty-hash success, state untouched. -/
theorem service_create_on_ccg_nochanges (ti : Option String) (t : RepoState)
    (tip : String) (c : CommitRec)
    (hh : t.head = .onBranch CCG_BRANCH_NAME)
    (ht : lookupBranch t CCG_BRANCH_NAME = some tip)
    (hc : lookupCommit t tip = some c)
    (he : c.tree = t.workdirTree) :
    Service_create ti t = (.ok "", t, [.enter, .bodyRun, .leave]) :=
  execute_wrapper_eq t (createBody ti) CCG_BRANCH_NAME t _ _ _
    (enterPhase_on_ccg t hh)
    (createBody_nochanges_on_ccg t ti tip c hh ht hc he)
    (restore_to_ccg t)

/-- Full service-level create starting from another branch with pending
changes. -/
theorem service_create_from_other (ti : Option String) (t : RepoState)
    (b tip : String) (c : CommitRec)
    (hh : t.head = .onBranch b) (hb : b ≠ CCG_BRANCH_NAME)
    (ht : lookupBranch t CCG_BRANCH_NAME = some tip)
    (hbex : (lookupBranch t b).isSome = true)
    (hc : lookupCommit t tip = some c)
    (hn : c.tree ≠ t.workdirTree)
    (hf1 : t.setHeadFailures.contains (branchRef CCG_BRANCH_NAME) = false)
    (hf2 : t.setHeadFailures.contains (branchRef b) = false) :
    Service_create ti t
      = (.ok (mkHash t.commits.length),
         { afterFirstCreate { t with head := .onBranch CCG_BRANCH_NAME }
             (ti.getD "Checkpoint created without a specific message.") c.hash
           with head := .onBranch b },
         [.enter, .bodyRun, .leave]) := by
  have hexB : (lookupBranch
      (afterFirstCreate { t with head := .onBranch CCG_BRANCH_NAME }
        (ti.getD "Checkpoint created without a specific message.") c.hash)
      b).isSome = true := by
    rw [lookupBranch_afterFirstCreate_other
      { t with head := .onBranch CCG_BRANCH_NAME }
      (ti.getD "Checkpoint created without a specific message.") c.hash b hb]
    exact hbex
  exact execute_wrapper_eq t (createBody ti) b
    { t with head := .onBranch CCG_BRANCH_NAME } _ _ _
    (enterPhase_from_other t b hh hb (by rw [ht]; rfl) hf1)
    (createBody_success_on_ccg { t with head := .onBranch CCG_BRANCH_NAME }
      ti tip c rfl ht hc hn)
    (restore_to_branch
      (afterFirstCreate { t with head := .onBranch CCG_BRANCH_NAME }
        (ti.getD "Checkpoint created without a specific message.") c.hash)
      b hb hf2 hexB)

/-- Full service-level create starting from another branch with no
pending changes: informational empty-hash success, backend untouched. -/
theorem service_create_from_other_nochanges (ti : Option String)
    (t : RepoState) (b tip : String) (c : CommitRec)
    (hh : t.head = .onBranch b) (hb : b ≠ CCG_BRANCH_NAME)
    (ht : lookupBranch t CCG_BRANCH_NAME = some tip)
    (hbex : (lookupBranch t b).isSome = true)
    (hc : lookupCommit t tip = some c)
    (he : c.tree = t.workdirTree)
    (hf1 : t.setHeadFailures.contains (branchRef CCG_BRANCH_NAME) = false)
    (hf2 : t.setHeadFailures.contains (branchRef b) = false) :
    Service_create ti t
      = (.ok "", { t with head := .onBranch b }, [.enter, .bodyRun, .leave]) :=
  execute_wrapper_eq t (createBody ti) b
    { t with head := .onBranch CCG_BRANCH_NAME } _ _ _
    (enterPhase_from_other t b hh hb (by rw [ht]; rfl) hf1)
    (createBody_nochanges_on_ccg { t with head := .onBranch CCG_BRANCH_NAME }
      ti tip c rfl ht hc he)
    (restore_to_branch { t with head := .onBranch CCG_BRANCH_NAME }
      b hb hf2 hbex)

/-- **C6.** If create succeeds (the first call commits a new checkpoint
and returns its hash) and no file is modified afterwards, a second create
is a no-op: it performs no commit, the repository state — in particular
the checkpoint branch tip — is exactly the state left by the first call,
and it returns the informational empty-hash success rather than an
error. -/
theorem create_twice_idempotent (ti : Option String) (s : RepoState)
    (b tip : String) (c : CommitRec)
    (hhead : s.head = .onBranch b)
    (hccg : lookupBranch s CCG_BRANCH_NAME = some tip)
    (hbex : (lookupBranch s b).isSome = true)
    (hc : lookupCommit s tip = some c)
    (hne : c.tree ≠ s.workdirTree)
    (hfresh : lookupCommit s (mkHash s.commits.length) = none)
    (hf1 : s.setHeadFailures.contains (branchRef CCG_BRANCH_NAME) = false)
    (hf2 : s.setHeadFailures.contains (branchRef b) = false) :
    (Service_create ti s).1 = .ok (mkHash s.commits.length) ∧
    (Service_create ti (Service_create ti s).2.1).1 = .ok "" ∧
    (Service_create ti (Service_create ti s).2.1).2.1 = (Service_create ti s).2.1 := by
  by_cases hbc : b = CCG_BRANCH_NAME
  · subst hbc
    have h1 := service_create_on_ccg ti s tip c hhead hccg hc hne
    have hh2 : (afterFirstCreate s
        (ti.getD "Checkpoint created without a specific message.") c.hash).head
        = HeadState.onBranch CCG_BRANCH_NAME := hhead
    have ht2 := lookupBranch_afterFirstCreate_self s
      (ti.getD "Checkpoint created without a specific message.") c.hash tip hccg
    have hc2 := lookupCommit_afterFirstCreate_new s
      (ti.getD "Checkpoint created without a specific message.") c.hash hfresh
    have he2 : (newCheckpoint s
        (ti.getD "Checkpoint created without a specific message.") c.hash).tree
        = (afterFirstCreate s
            (ti.getD "Checkpoint created without a specific message.") c.hash).workdirTree := rfl
    have h2 := service_create_on_ccg_nochanges ti
      (afterFirstCreate s
        (ti.getD "Checkpoint created without a specific message.") c.hash)
      (mkHash s.commits.length)
      (newCheckpoint s
        (ti.getD "Checkpoint created without a specific message.") c.hash)
      hh2 ht2 hc2 he2
    refine ⟨?_, ?_, ?_⟩
    · rw [h1]
    · rw [h1]
      dsimp only
      rw [h2]
    · rw [h1]
      dsimp only
      rw [h2]
  · have h1 := service_create_from_other ti s b tip c hhead hbc hccg hbex hc hne hf1 hf2
    have hhC : ({ afterFirstCreate { s with head := .onBranch CCG_BRANCH_NAME }
          (ti.getD "Checkpoint created without a specific message.") c.hash
        with head := .onBranch b } : RepoState).head = HeadState.onBranch b := rfl
    have htC : lookupBranch
        { afterFirstCreate { s with head := .onBranch CCG_BRANCH_NAME }
            (ti.getD "Checkpoint created without a specific message.") c.hash
          with head := .onBranch b } CCG_BRANCH_NAME
        = some (mkHash s.commits.length) :=
      lookupBranch_afterFirstCreate_self { s with head := .onBranch CCG_BRANCH_NAME }
        (ti.getD "Checkpoint created without a specific message.") c.hash tip hccg
    have hbexC : (lookupBranch
        { afterFirstCreate { s with head := .onBranch CCG_BRANCH_NAME }
            (ti.getD "Checkpoint created without a specific message.") c.hash
          with head := .onBranch b } b).isSome = true := by
      rw [show lookupBranch
          { afterFirstCreate { s with head := .onBranch CCG_BRANCH_NAME }
              (ti.getD "Checkpoint created without a specific message.") c.hash
            with head := .onBranch b } b
          = lookupBranch { s with head := .onBranch CCG_BRANCH_NAME } b from
        lookupBranch_afterFirstCreate_other
          { s with head := .onBranch CCG_BRANCH_NAME }
          (ti.getD "Checkpoint created without a specific message.") c.hash b hbc]
      exact hbex
    have hcC : lookupCommit
        { afterFirstCreate { s with head := .onBranch CCG_BRANCH_NAME }
            (ti.getD "Checkpoint created without a specific message.") c.hash
          with head := .onBranch b } (mkHash s.commits.length)
        = some (newCheckpoint { s with head := .onBranch CCG_BRANCH_NAME }
            (ti.getD "Checkpoint created without a specific message.") c.hash) :=
      lookupCommit_afterFirstCreate_new
        { s with head := .onBranch CCG_BRANCH_NAME }
        (ti.getD "Checkpoint created without a specific message.") c.hash hfresh
    have heC : (newCheckpoint { s with head := .onBranch CCG_BRANCH_NAME }
          (ti.getD "Checkpoint created without a specific message.") c.hash).tree
        = ({ afterFirstCreate { s with head := .onBranch CCG_BRANCH_NAME }
              (ti.getD "Checkpoint created without a specific message.") c.hash
            with head := .onBranch b } : RepoState).workdirTree := rfl
    have hf1C : ({ afterFirstCreate { s with head := .onBranch CCG_BRANCH_NAME }
          (ti.getD "Checkpoint created without a specific message.") c.hash
        with head := .onBranch b } : RepoState).setHeadFailures.contains
          (branchRef CCG_BRANCH_NAME) = false := hf1
    have hf2C : ({ afterFirstCreate { s with head := .onBranch CCG_BRANCH_NAME }
          (ti.getD "Checkpoint created without a specific message.") c.hash
        with head := .onBranch b } : RepoState).setHeadFailures.contains
          (branchRef b) = false := hf2
    have h2 := service_create_from_other_nochanges ti
      { afterFirstCreate { s with head := .onBranch CCG_BRANCH_NAME }
          (ti.getD "Checkpoint created without a specific message.") c.hash
        with head := .onBranch b }
      b (mkHash s.commits.length)
      (newCheckpoint { s with head := .onBranch CCG_BRANCH_NAME }
        (ti.getD "Checkpoint created without a specific message.") c.hash)
      hhC hbc htC hbexC hcC heC hf1C hf2C
    refine ⟨?_, ?_, ?_⟩
    · rw [h1]
    · rw [h1]
      dsimp only
      rw [h2]
    · rw [h1]
      dsimp only
      rw [h2]


/-- Witness for the create-twice idempotence theorem on the concrete
sample repository. -/
theorem create_twice_idempotent_witness :
    (cleanRepo.head = HeadState.onBranch "main" ∧
     lookupBranch cleanRepo CCG_BRANCH_NAME = some hashAb1 ∧
     (lookupBranch cleanRepo "main").isSome = true ∧
     lookupCommit cleanRepo hashAb1 = some commitBase ∧
     commitBase.tree ≠ cleanRepo.workdirTree ∧
     lookupCommit cleanRepo (mkHash cleanRepo.commits.length) = none ∧
     cleanRepo.setHeadFailures.contains (branchRef CCG_BRANCH_NAME) = false ∧
     cleanRepo.setHeadFailures.contains (branchRef "main") = false) ∧
    ((Service_create none cleanRepo).1 = .ok (mkHash cleanRepo.commits.length) ∧
     (Service_create none (Service_create none cleanRepo).2.1).1 = .ok "" ∧
     (Service_create none (Service_create none cleanRepo).2.1).2.1
       = (Service_create none cleanRepo).2.1) :=
  ⟨⟨rfl, by decide, by decide, by decide, by decide, by decide, by decide,
    by decide⟩,
   create_twice_idempotent none cleanRepo "main" hashAb1 commitBase rfl
     (by decide) (by decide) (by decide) (by decide) (by decide) (by decide)
     (by decide)⟩

end CcGuardian
